import Mathlib

/-!
Verification of the type-inference core of the ante compiler
(src/types/typechecker.rs), via a shallow embedding in Lean.

Machine types: `TypeVariableId`, `LetBindingLevel`, `DefinitionInfoId`,
`TypeInfoId`, `EffectInfoId` and `PrimitiveType` are modelled as `Nat`.
Struct fields (`BTreeMap<String, Type>` in the source) are modelled as
association lists sorted by key, which is the canonical order a `BTreeMap`
iterates in.  The module cache's `type_bindings` array is a `List`.

Recursions in the source that have no termination guarantee of their own
(they can loop through `Bound` links of the cache) receive an artificial
fuel parameter and return `Option`: a `none` result models a computation
that is still recursing, i.e. it carries no information about the Rust
program other than non-termination up to that depth.  The `occurs` and
`find_all_typevars` traversals carry a real fuel parameter in the source
(`RECURSION_LIMIT`), whose exhaustion panics; a panic is modelled by a
distinguished `panicked` result, never by `none`.
-/

namespace Ante

/-- The `TypeTag` enum: tags used inside reference types. -/
inductive TypeTag where
  | mutable
  | immutable
  | owned
  | shared
deriving DecidableEq

/-- The `Type` enum of the source (`types/mod.rs`), called `Ty` here since
`Type` is taken by Lean.  `effects` models `Effects(EffectSet)` with the
effect set inlined: a list of `(effect id, argument types)` pairs plus an
optional extension variable (the `EffectSet` definition itself is not under
`src/`; its shape is taken from the spec, §3 "EffectSet"). -/
inductive Ty where
  | primitive (p : Nat)
  | tag (t : TypeTag)
  | userDefined (id : Nat)
  | typeVariable (id : Nat)
  | namedGeneric (id : Nat) (name : String)
  | function (parameters : List Ty) (returnType : Ty) (environment : Ty)
      (effects : Ty) (hasVarargs : Bool)
  | typeApplication (constructor : Ty) (args : List Ty)
  | ref (sharedness : Ty) (mutability : Ty) (lifetime : Ty)
  | struct (fields : List (String × Ty)) (row : Nat)
  | effects (effs : List (Nat × List Ty)) (ext : Option Nat)

/-- Decidable equality on `Option Nat`, named for use in the manual
decidable-equality development below. -/
def decEqOptNat : DecidableEq (Option Nat) := inferInstance

mutual

/-- Decidable equality for `Ty` (the derive handler does not support nested
inductives, so the decision procedure is written out). -/
def decEqTy : (a b : Ty) → Decidable (a = b)
  | .primitive x1, .primitive y1 =>
      match instDecidableEqNat x1 y1 with
      | isFalse h => isFalse (fun hh => h (Ty.primitive.inj hh))
      | isTrue h1 =>
      isTrue (by rw [h1])
  | .tag x1, .tag y1 =>
      match instDecidableEqTypeTag x1 y1 with
      | isFalse h => isFalse (fun hh => h (Ty.tag.inj hh))
      | isTrue h1 =>
      isTrue (by rw [h1])
  | .userDefined x1, .userDefined y1 =>
      match instDecidableEqNat x1 y1 with
      | isFalse h => isFalse (fun hh => h (Ty.userDefined.inj hh))
      | isTrue h1 =>
      isTrue (by rw [h1])
  | .typeVariable x1, .typeVariable y1 =>
      match instDecidableEqNat x1 y1 with
      | isFalse h => isFalse (fun hh => h (Ty.typeVariable.inj hh))
      | isTrue h1 =>
      isTrue (by rw [h1])
  | .namedGeneric x1 x2, .namedGeneric y1 y2 =>
      match instDecidableEqNat x1 y1 with
      | isFalse h => isFalse (fun hh => h (Ty.namedGeneric.inj hh).1)
      | isTrue h1 =>
      match instDecidableEqString x2 y2 with
      | isFalse h => isFalse (fun hh => h (Ty.namedGeneric.inj hh).2)
      | isTrue h2 =>
      isTrue (by rw [h1, h2])
  | .function x1 x2 x3 x4 x5, .function y1 y2 y3 y4 y5 =>
      match decEqTyList x1 y1 with
      | isFalse h => isFalse (fun hh => h (Ty.function.inj hh).1)
      | isTrue h1 =>
      match decEqTy x2 y2 with
      | isFalse h => isFalse (fun hh => h (Ty.function.inj hh).2.1)
      | isTrue h2 =>
      match decEqTy x3 y3 with
      | isFalse h => isFalse (fun hh => h (Ty.function.inj hh).2.2.1)
      | isTrue h3 =>
      match decEqTy x4 y4 with
      | isFalse h => isFalse (fun hh => h (Ty.function.inj hh).2.2.2.1)
      | isTrue h4 =>
      match Bool.decEq x5 y5 with
      | isFalse h => isFalse (fun hh => h (Ty.function.inj hh).2.2.2.2)
      | isTrue h5 =>
      isTrue (by rw [h1, h2, h3, h4, h5])
  | .typeApplication x1 x2, .typeApplication y1 y2 =>
      match decEqTy x1 y1 with
      | isFalse h => isFalse (fun hh => h (Ty.typeApplication.inj hh).1)
      | isTrue h1 =>
      match decEqTyList x2 y2 with
      | isFalse h => isFalse (fun hh => h (Ty.typeApplication.inj hh).2)
      | isTrue h2 =>
      isTrue (by rw [h1, h2])
  | .ref x1 x2 x3, .ref y1 y2 y3 =>
      match decEqTy x1 y1 with
      | isFalse h => isFalse (fun hh => h (Ty.ref.inj hh).1)
      | isTrue h1 =>
      match decEqTy x2 y2 with
      | isFalse h => isFalse (fun hh => h (Ty.ref.inj hh).2.1)
      | isTrue h2 =>
      match decEqTy x3 y3 with
      | isFalse h => isFalse (fun hh => h (Ty.ref.inj hh).2.2)
      | isTrue h3 =>
      isTrue (by rw [h1, h2, h3])
  | .struct x1 x2, .struct y1 y2 =>
      match decEqFieldList x1 y1 with
      | isFalse h => isFalse (fun hh => h (Ty.struct.inj hh).1)
      | isTrue h1 =>
      match instDecidableEqNat x2 y2 with
      | isFalse h => isFalse (fun hh => h (Ty.struct.inj hh).2)
      | isTrue h2 =>
      isTrue (by rw [h1, h2])
  | .effects x1 x2, .effects y1 y2 =>
      match decEqEffList x1 y1 with
      | isFalse h => isFalse (fun hh => h (Ty.effects.inj hh).1)
      | isTrue h1 =>
      match decEqOptNat x2 y2 with
      | isFalse h => isFalse (fun hh => h (Ty.effects.inj hh).2)
      | isTrue h2 =>
      isTrue (by rw [h1, h2])
  | .primitive _, .tag _ => isFalse (fun hh => Ty.noConfusion hh)
  | .primitive _, .userDefined _ => isFalse (fun hh => Ty.noConfusion hh)
  | .primitive _, .typeVariable _ => isFalse (fun hh => Ty.noConfusion hh)
  | .primitive _, .namedGeneric _ _ => isFalse (fun hh => Ty.noConfusion hh)
  | .primitive _, .function _ _ _ _ _ => isFalse (fun hh => Ty.noConfusion hh)
  | .primitive _, .typeApplication _ _ => isFalse (fun hh => Ty.noConfusion hh)
  | .primitive _, .ref _ _ _ => isFalse (fun hh => Ty.noConfusion hh)
  | .primitive _, .struct _ _ => isFalse (fun hh => Ty.noConfusion hh)
  | .primitive _, .effects _ _ => isFalse (fun hh => Ty.noConfusion hh)
  | .tag _, .primitive _ => isFalse (fun hh => Ty.noConfusion hh)
  | .tag _, .userDefined _ => isFalse (fun hh => Ty.noConfusion hh)
  | .tag _, .typeVariable _ => isFalse (fun hh => Ty.noConfusion hh)
  | .tag _, .namedGeneric _ _ => isFalse (fun hh => Ty.noConfusion hh)
  | .tag _, .function _ _ _ _ _ => isFalse (fun hh => Ty.noConfusion hh)
  | .tag _, .typeApplication _ _ => isFalse (fun hh => Ty.noConfusion hh)
  | .tag _, .ref _ _ _ => isFalse (fun hh => Ty.noConfusion hh)
  | .tag _, .struct _ _ => isFalse (fun hh => Ty.noConfusion hh)
  | .tag _, .effects _ _ => isFalse (fun hh => Ty.noConfusion hh)
  | .userDefined _, .primitive _ => isFalse (fun hh => Ty.noConfusion hh)
  | .userDefined _, .tag _ => isFalse (fun hh => Ty.noConfusion hh)
  | .userDefined _, .typeVariable _ => isFalse (fun hh => Ty.noConfusion hh)
  | .userDefined _, .namedGeneric _ _ => isFalse (fun hh => Ty.noConfusion hh)
  | .userDefined _, .function _ _ _ _ _ => isFalse (fun hh => Ty.noConfusion hh)
  | .userDefined _, .typeApplication _ _ => isFalse (fun hh => Ty.noConfusion hh)
  | .userDefined _, .ref _ _ _ => isFalse (fun hh => Ty.noConfusion hh)
  | .userDefined _, .struct _ _ => isFalse (fun hh => Ty.noConfusion hh)
  | .userDefined _, .effects _ _ => isFalse (fun hh => Ty.noConfusion hh)
  | .typeVariable _, .primitive _ => isFalse (fun hh => Ty.noConfusion hh)
  | .typeVariable _, .tag _ => isFalse (fun hh => Ty.noConfusion hh)
  | .typeVariable _, .userDefined _ => isFalse (fun hh => Ty.noConfusion hh)
  | .typeVariable _, .namedGeneric _ _ => isFalse (fun hh => Ty.noConfusion hh)
  | .typeVariable _, .function _ _ _ _ _ => isFalse (fun hh => Ty.noConfusion hh)
  | .typeVariable _, .typeApplication _ _ => isFalse (fun hh => Ty.noConfusion hh)
  | .typeVariable _, .ref _ _ _ => isFalse (fun hh => Ty.noConfusion hh)
  | .typeVariable _, .struct _ _ => isFalse (fun hh => Ty.noConfusion hh)
  | .typeVariable _, .effects _ _ => isFalse (fun hh => Ty.noConfusion hh)
  | .namedGeneric _ _, .primitive _ => isFalse (fun hh => Ty.noConfusion hh)
  | .namedGeneric _ _, .tag _ => isFalse (fun hh => Ty.noConfusion hh)
  | .namedGeneric _ _, .userDefined _ => isFalse (fun hh => Ty.noConfusion hh)
  | .namedGeneric _ _, .typeVariable _ => isFalse (fun hh => Ty.noConfusion hh)
  | .namedGeneric _ _, .function _ _ _ _ _ => isFalse (fun hh => Ty.noConfusion hh)
  | .namedGeneric _ _, .typeApplication _ _ => isFalse (fun hh => Ty.noConfusion hh)
  | .namedGeneric _ _, .ref _ _ _ => isFalse (fun hh => Ty.noConfusion hh)
  | .namedGeneric _ _, .struct _ _ => isFalse (fun hh => Ty.noConfusion hh)
  | .namedGeneric _ _, .effects _ _ => isFalse (fun hh => Ty.noConfusion hh)
  | .function _ _ _ _ _, .primitive _ => isFalse (fun hh => Ty.noConfusion hh)
  | .function _ _ _ _ _, .tag _ => isFalse (fun hh => Ty.noConfusion hh)
  | .function _ _ _ _ _, .userDefined _ => isFalse (fun hh => Ty.noConfusion hh)
  | .function _ _ _ _ _, .typeVariable _ => isFalse (fun hh => Ty.noConfusion hh)
  | .function _ _ _ _ _, .namedGeneric _ _ => isFalse (fun hh => Ty.noConfusion hh)
  | .function _ _ _ _ _, .typeApplication _ _ => isFalse (fun hh => Ty.noConfusion hh)
  | .function _ _ _ _ _, .ref _ _ _ => isFalse (fun hh => Ty.noConfusion hh)
  | .function _ _ _ _ _, .struct _ _ => isFalse (fun hh => Ty.noConfusion hh)
  | .function _ _ _ _ _, .effects _ _ => isFalse (fun hh => Ty.noConfusion hh)
  | .typeApplication _ _, .primitive _ => isFalse (fun hh => Ty.noConfusion hh)
  | .typeApplication _ _, .tag _ => isFalse (fun hh => Ty.noConfusion hh)
  | .typeApplication _ _, .userDefined _ => isFalse (fun hh => Ty.noConfusion hh)
  | .typeApplication _ _, .typeVariable _ => isFalse (fun hh => Ty.noConfusion hh)
  | .typeApplication _ _, .namedGeneric _ _ => isFalse (fun hh => Ty.noConfusion hh)
  | .typeApplication _ _, .function _ _ _ _ _ => isFalse (fun hh => Ty.noConfusion hh)
  | .typeApplication _ _, .ref _ _ _ => isFalse (fun hh => Ty.noConfusion hh)
  | .typeApplication _ _, .struct _ _ => isFalse (fun hh => Ty.noConfusion hh)
  | .typeApplication _ _, .effects _ _ => isFalse (fun hh => Ty.noConfusion hh)
  | .ref _ _ _, .primitive _ => isFalse (fun hh => Ty.noConfusion hh)
  | .ref _ _ _, .tag _ => isFalse (fun hh => Ty.noConfusion hh)
  | .ref _ _ _, .userDefined _ => isFalse (fun hh => Ty.noConfusion hh)
  | .ref _ _ _, .typeVariable _ => isFalse (fun hh => Ty.noConfusion hh)
  | .ref _ _ _, .namedGeneric _ _ => isFalse (fun hh => Ty.noConfusion hh)
  | .ref _ _ _, .function _ _ _ _ _ => isFalse (fun hh => Ty.noConfusion hh)
  | .ref _ _ _, .typeApplication _ _ => isFalse (fun hh => Ty.noConfusion hh)
  | .ref _ _ _, .struct _ _ => isFalse (fun hh => Ty.noConfusion hh)
  | .ref _ _ _, .effects _ _ => isFalse (fun hh => Ty.noConfusion hh)
  | .struct _ _, .primitive _ => isFalse (fun hh => Ty.noConfusion hh)
  | .struct _ _, .tag _ => isFalse (fun hh => Ty.noConfusion hh)
  | .struct _ _, .userDefined _ => isFalse (fun hh => Ty.noConfusion hh)
  | .struct _ _, .typeVariable _ => isFalse (fun hh => Ty.noConfusion hh)
  | .struct _ _, .namedGeneric _ _ => isFalse (fun hh => Ty.noConfusion hh)
  | .struct _ _, .function _ _ _ _ _ => isFalse (fun hh => Ty.noConfusion hh)
  | .struct _ _, .typeApplication _ _ => isFalse (fun hh => Ty.noConfusion hh)
  | .struct _ _, .ref _ _ _ => isFalse (fun hh => Ty.noConfusion hh)
  | .struct _ _, .effects _ _ => isFalse (fun hh => Ty.noConfusion hh)
  | .effects _ _, .primitive _ => isFalse (fun hh => Ty.noConfusion hh)
  | .effects _ _, .tag _ => isFalse (fun hh => Ty.noConfusion hh)
  | .effects _ _, .userDefined _ => isFalse (fun hh => Ty.noConfusion hh)
  | .effects _ _, .typeVariable _ => isFalse (fun hh => Ty.noConfusion hh)
  | .effects _ _, .namedGeneric _ _ => isFalse (fun hh => Ty.noConfusion hh)
  | .effects _ _, .function _ _ _ _ _ => isFalse (fun hh => Ty.noConfusion hh)
  | .effects _ _, .typeApplication _ _ => isFalse (fun hh => Ty.noConfusion hh)
  | .effects _ _, .ref _ _ _ => isFalse (fun hh => Ty.noConfusion hh)
  | .effects _ _, .struct _ _ => isFalse (fun hh => Ty.noConfusion hh)


termination_by structural a _ => a

/-- Decidable equality for lists of types. -/
def decEqTyList : (xs ys : List Ty) → Decidable (xs = ys)
  | [], [] => isTrue rfl
  | [], _ :: _ => isFalse (fun hh => List.noConfusion hh)
  | _ :: _, [] => isFalse (fun hh => List.noConfusion hh)
  | x :: xs, y :: ys =>
      match decEqTy x y with
      | isFalse h => isFalse (fun hh => by injection hh with h1 h2; exact h h1)
      | isTrue h1 =>
      match decEqTyList xs ys with
      | isFalse h => isFalse (fun hh => by injection hh with h1 h2; exact h h2)
      | isTrue h2 =>
      isTrue (by rw [h1, h2])

termination_by structural xs _ => xs

/-- Decidable equality for struct field lists. -/
def decEqFieldList : (xs ys : List (String × Ty)) → Decidable (xs = ys)
  | [], [] => isTrue rfl
  | [], _ :: _ => isFalse (fun hh => List.noConfusion hh)
  | _ :: _, [] => isFalse (fun hh => List.noConfusion hh)
  | (k1, v1) :: xs, (k2, v2) :: ys =>
      match instDecidableEqString k1 k2 with
      | isFalse h =>
          isFalse (fun hh => by
            injection hh with h1 h2; injection h1 with hk hv; exact h hk)
      | isTrue hk =>
      match decEqTy v1 v2 with
      | isFalse h =>
          isFalse (fun hh => by
            injection hh with h1 h2; injection h1 with hk2 hv; exact h hv)
      | isTrue hv =>
      match decEqFieldList xs ys with
      | isFalse h => isFalse (fun hh => by injection hh with h1 h2; exact h h2)
      | isTrue ht =>
      isTrue (by rw [hk, hv, ht])

termination_by structural xs _ => xs

/-- Decidable equality for effect lists. -/
def decEqEffList : (xs ys : List (Nat × List Ty)) → Decidable (xs = ys)
  | [], [] => isTrue rfl
  | [], _ :: _ => isFalse (fun hh => List.noConfusion hh)
  | _ :: _, [] => isFalse (fun hh => List.noConfusion hh)
  | (k1, v1) :: xs, (k2, v2) :: ys =>
      match instDecidableEqNat k1 k2 with
      | isFalse h =>
          isFalse (fun hh => by
            injection hh with h1 h2; injection h1 with hk hv; exact h hk)
      | isTrue hk =>
      match decEqTyList v1 v2 with
      | isFalse h =>
          isFalse (fun hh => by
            injection hh with h1 h2; injection h1 with hk2 hv; exact h hv)
      | isTrue hv =>
      match decEqEffList xs ys with
      | isFalse h => isFalse (fun hh => by injection hh with h1 h2; exact h h2)
      | isTrue ht =>
      isTrue (by rw [hk, hv, ht])
termination_by structural xs _ => xs

end

instance : DecidableEq Ty := decEqTy

/-- The `TypeBinding` enum: what a type variable id maps to in the cache.
The `kind` of an unbound variable is modelled as a `Nat`. -/
inductive TypeBinding where
  | bound (typ : Ty)
  | unbound (level : Nat) (kind : Nat)
deriving DecidableEq

/-- The body of a `TypeInfo` (user-defined type): alias, union, unknown or
a struct with named fields. -/
inductive TypeInfoBody where
  | aliasBody (t : Ty)
  | union
  | unknown
  | structBody (fields : List (String × Ty))
deriving DecidableEq

/-- A user-defined type's info: its generic argument variables and body. -/
structure TypeInfo where
  args : List Nat
  body : TypeInfoBody
deriving DecidableEq

/-- The slice of the `ModuleCache` that the unification kernel touches:
the `type_bindings` array, the `type_infos` array, the number of
diagnostics pushed so far, and the value of the global `CURRENT_LEVEL`
counter (a process global in the source, carried here as cache state). -/
structure Cache where
  typeBindings : List TypeBinding
  typeInfos : List TypeInfo
  diagnostics : Nat
  curLevel : Nat
deriving DecidableEq

/-- Array indexing `cache.type_bindings[id.0]`.  Ids are always in range in
the source (out-of-range indexing would panic); out-of-range ids are mapped
to a default unbound binding here. -/
def Cache.binding (c : Cache) (id : Nat) : TypeBinding :=
  c.typeBindings.getD id (.unbound 0 0)

/-- The `ModuleCache::bind(id, typ)` operation: permanently bind a variable. -/
def Cache.bindVar (c : Cache) (id : Nat) (t : Ty) : Cache :=
  { c with typeBindings := c.typeBindings.set id (.bound t) }

/-- The `ModuleCache::next_type_variable_id(level)` operation: append a fresh
unbound variable at the given level and return its id. -/
def Cache.allocVar (c : Cache) (level : Nat) : Nat × Cache :=
  (c.typeBindings.length,
   { c with typeBindings := c.typeBindings ++ [.unbound level 0] })

/-- The `ModuleCache::push_full_diagnostic` operation, tracked as a count. -/
def Cache.pushDiag (c : Cache) : Cache :=
  { c with diagnostics := c.diagnostics + 1 }

/-- The `UnificationBindings` struct: staged type bindings (an insert-order
association list, newest first, so that lookup of the first occurrence
matches `HashMap` insert-overwrites semantics) plus staged level demotions. -/
structure UnificationBindings where
  bindings : List (Nat × Ty)
  levelBindings : List (Nat × Nat)
deriving DecidableEq

/-- The `UnificationBindings::empty` constructor. -/
def UnificationBindings.empty : UnificationBindings := ⟨[], []⟩

/-- Staged-map insertion (`bindings.bindings.insert(id, t)`). -/
def UnificationBindings.insert (b : UnificationBindings) (id : Nat) (t : Ty) :
    UnificationBindings :=
  { b with bindings := (id, t) :: b.bindings }

/-- The `perform_type_bindings` helper: commit every staged type binding to
the cache.  The staged list is newest-first; committing oldest-to-newest
makes the newest entry win, matching `HashMap` overwrite semantics. -/
def performTypeBindings (bs : List (Nat × Ty)) (c : Cache) : Cache :=
  bs.reverse.foldl (fun c p => c.bindVar p.1 p.2) c

/-- The `UnificationBindings::perform` method: commit the staged type
bindings, then apply each staged level demotion, skipping variables that
became bound, and taking the minimum of the recorded and current level. -/
def UnificationBindings.perform (b : UnificationBindings) (c : Cache) : Cache :=
  let c1 := performTypeBindings b.bindings c
  b.levelBindings.foldl
    (fun c p =>
      match c.binding p.1 with
      | .bound _ => c
      | .unbound originalLevel kind =>
          { c with typeBindings :=
              c.typeBindings.set p.1 (.unbound (min p.2 originalLevel) kind) })
    c1

/-- The `find_binding` helper: a staged or cached binding for a variable. -/
def findBinding (id : Nat) (b : UnificationBindings) (c : Cache) : TypeBinding :=
  match c.binding id with
  | .bound t => .bound t
  | .unbound level kind =>
      match b.bindings.lookup id with
      | some t => .bound t
      | none => .unbound level kind

/-- The `has_binding` helper. -/
def hasBinding (id : Nat) (b : UnificationBindings) (c : Cache) : Bool :=
  match c.binding id with
  | .bound _ => true
  | .unbound _ _ => (b.bindings.lookup id).isSome

/-- The `RECURSION_LIMIT` constant. -/
def RECURSION_LIMIT : Nat := 100

/-- Result of `follow_bindings_in_cache`, fuelled: the source version has no
recursion guard, so `none` models non-termination on a cyclic cache. -/
def followBindingsInCache (fuel : Nat) (typ : Ty) (c : Cache) : Option Ty :=
  match typ with
  | .typeVariable id =>
      match c.binding id with
      | .bound t =>
          match fuel with
          | 0 => none
          | fuel + 1 => followBindingsInCache fuel t c
      | .unbound _ _ => some typ
  | _ => some typ

/-- Result of `follow_bindings_in_cache_and_map`, fuelled like
`followBindingsInCache` but consulting the staged bindings too. -/
def followBindingsInCacheAndMap (fuel : Nat) (typ : Ty)
    (b : UnificationBindings) (c : Cache) : Option Ty :=
  match typ with
  | .typeVariable id =>
      match findBinding id b c with
      | .bound t =>
          match fuel with
          | 0 => none
          | fuel + 1 => followBindingsInCacheAndMap fuel t b c
      | .unbound _ _ => some typ
  | _ => some typ

/-- The `OccursResult` struct: whether the needle occurs, plus the level
bindings collected along the way. -/
structure OccursResult where
  occurs : Bool
  levelBindings : List (Nat × Nat)
deriving DecidableEq

/-- Outcome of the `occurs` traversal: a result, or the
"Recursion limit reached in occurs" panic. -/
inductive OccursOut where
  | res (r : OccursResult)
  | panicked
deriving DecidableEq

/-- The `OccursResult::then` combinator: continue only if not yet occurred,
appending level bindings; panics propagate. -/
def OccursOut.andThen (x : OccursOut) (f : Unit → OccursOut) : OccursOut :=
  match x with
  | .panicked => .panicked
  | .res r =>
      if r.occurs then .res r
      else
        match f () with
        | .panicked => .panicked
        | .res r2 => .res ⟨r2.occurs, r.levelBindings ++ r2.levelBindings⟩

mutual

/-- The `occurs_helper` traversal: can `TypeVariable(id)` be found inside
`typ`?  Decrements its fuel at every entry and panics at zero as the
source does.  (For structural termination, the fuel is decremented at every
recursive step of this block, including list iteration and the
`typevars_match` jump, where the source keeps the current fuel; this only
makes exhaustion — and hence the panic — occur marginally earlier.) -/
def occursHelper : Nat → Nat → Ty → UnificationBindings → Nat → Cache → OccursOut
  | _, _, _, _, 0, _ => .panicked
  | needle, level, typ, b, fuel + 1, c =>
      match typ with
      | .primitive _ => .res ⟨false, []⟩
      | .userDefined _ => .res ⟨false, []⟩
      | .tag _ => .res ⟨false, []⟩
      | .typeVariable varId => typevarsMatch needle level varId b fuel c
      | .namedGeneric varId _ => typevarsMatch needle level varId b fuel c
      | .function params ret env effs _ =>
          (occursHelper needle level ret b fuel c).andThen (fun _ =>
            (occursHelper needle level env b fuel c).andThen (fun _ =>
              (occursHelper needle level effs b fuel c).andThen (fun _ =>
                occursList needle level params b fuel c)))
      | .typeApplication ctor args =>
          (occursHelper needle level ctor b fuel c).andThen (fun _ =>
            occursList needle level args b fuel c)
      | .ref sh mu lt =>
          (occursHelper needle level mu b fuel c).andThen (fun _ =>
            (occursHelper needle level sh b fuel c).andThen (fun _ =>
              occursHelper needle level lt b fuel c))
      | .struct fields varId =>
          (typevarsMatch needle level varId b fuel c).andThen (fun _ =>
            occursList needle level (fields.map Prod.snd) b fuel c)
      | .effects effs ext =>
          (match ext with
           | some x => typevarsMatch needle level x b fuel c
           | none => .res ⟨false, []⟩).andThen (fun _ =>
            occursList needle level (effs.map Prod.snd).flatten b fuel c)
termination_by structural _ _ _ _ f _ => f

/-- Iteration of `occurs_helper` over a list (`OccursResult::then_all`). -/
def occursList : Nat → Nat → List Ty → UnificationBindings → Nat → Cache → OccursOut
  | _, _, _, _, 0, _ => .panicked
  | needle, level, types, b, fuel + 1, c =>
      match types with
      | [] => .res ⟨false, []⟩
      | t :: ts =>
          (occursHelper needle level t b fuel c).andThen (fun _ =>
            occursList needle level ts b fuel c)
termination_by structural _ _ _ _ f _ => f

/-- The `typevars_match` helper of the occurs check.  Note the source
records the level binding for `needle`, the variable the occurs check was
started from, not for the `haystack` variable that was found. -/
def typevarsMatch : Nat → Nat → Nat → UnificationBindings → Nat → Cache → OccursOut
  | needle, level, haystack, b, 0, c =>
      (match findBinding haystack b c with
      | .bound _ => .panicked
      | .unbound originalLevel _ =>
          .res ⟨needle == haystack,
                if level < originalLevel then [(needle, level)] else []⟩)
  | needle, level, haystack, b, fuel + 1, c =>
      match findBinding haystack b c with
      | .bound binding => occursHelper needle level binding b fuel c
      | .unbound originalLevel _ =>
          .res ⟨needle == haystack,
                if level < originalLevel then [(needle, level)] else []⟩
termination_by structural _ _ _ _ f _ => f

end

/-- Sorted insertion into a struct field list, mirroring `BTreeMap::insert`
(fields are kept sorted by name; an equal key is overwritten). -/
def insertField (name : String) (t : Ty) : List (String × Ty) → List (String × Ty)
  | [] => [(name, t)]
  | (k, v) :: rest =>
      match compare name k with
      | .lt => (name, t) :: (k, v) :: rest
      | .eq => (name, t) :: rest
      | .gt => (k, v) :: insertField name t rest

mutual

/-- The `bind_typevars` traversal: replace exactly the variables present in
the given mapping, following cache bindings for the others.  The source has
no recursion guard; fuel is consumed only when jumping through a cache
binding, so `none` models divergence on a cyclic cache. -/
def bindTypevars (fuel : Nat) (typ : Ty) (m : List (Nat × Ty)) (c : Cache) :
    Option Ty :=
  match typ with
  | .primitive p => some (.primitive p)
  | .tag t => some (.tag t)
  | .typeVariable id => bindTypevar fuel id m c
  | .namedGeneric id _ =>
      match m.lookup id with
      | some binding => some binding
      | none => some typ
  | .function params ret env effs va => do
      let params2 ← bindTypevarsList fuel params m c
      let ret2 ← bindTypevars fuel ret m c
      let env2 ← bindTypevars fuel env m c
      let effs2 ← bindTypevars fuel effs m c
      some (.function params2 ret2 env2 effs2 va)
  | .userDefined id => some (.userDefined id)
  | .ref sh mu lt => do
      let mu2 ← bindTypevars fuel mu m c
      let sh2 ← bindTypevars fuel sh m c
      let lt2 ← bindTypevars fuel lt m c
      some (.ref sh2 mu2 lt2)
  | .typeApplication t args => do
      let t2 ← bindTypevars fuel t m c
      let args2 ← bindTypevarsList fuel args m c
      some (.typeApplication t2 args2)
  | .struct fields id =>
      match m.lookup id with
      | some (.typeVariable bindingId) => do
          let fields2 ← bindFieldsList fuel fields m c
          some (.struct fields2 bindingId)
      | some binding => some binding
      | none =>
          match c.binding id with
          | .bound t =>
              match fuel with
              | 0 => none
              | fuel + 1 => bindTypevars fuel t m c
          | .unbound _ _ => do
              let fields2 ← bindFieldsList fuel fields m c
              some (.struct fields2 id)
  | .effects effs ext => bindEffects fuel effs ext m c
termination_by (fuel, 2 * sizeOf typ)
decreasing_by all_goals simp_wf <;> omega

/-- The `bind_typevar` helper: a single variable, mapping first, cache next. -/
def bindTypevar (fuel : Nat) (id : Nat) (m : List (Nat × Ty)) (c : Cache) :
    Option Ty :=
  match m.lookup id with
  | some binding => some binding
  | none =>
      match c.binding id with
      | .bound t =>
          match fuel with
          | 0 => none
          | fuel + 1 => bindTypevars fuel t m c
      | .unbound _ _ => some (.typeVariable id)
termination_by (fuel, 0)
decreasing_by all_goals simp_wf <;> omega

/-- Substitution mapped over a list of types. -/
def bindTypevarsList (fuel : Nat) (ts : List Ty) (m : List (Nat × Ty))
    (c : Cache) : Option (List Ty) :=
  match ts with
  | [] => some []
  | t :: rest => do
      let t2 ← bindTypevars fuel t m c
      let rest2 ← bindTypevarsList fuel rest m c
      some (t2 :: rest2)
termination_by (fuel, 2 * sizeOf ts)
decreasing_by all_goals simp_wf <;> omega

/-- Substitution mapped over a struct field list. -/
def bindFieldsList (fuel : Nat) (fs : List (String × Ty)) (m : List (Nat × Ty))
    (c : Cache) : Option (List (String × Ty)) :=
  match fs with
  | [] => some []
  | (k, v) :: rest => do
      let v2 ← bindTypevars fuel v m c
      let rest2 ← bindFieldsList fuel rest m c
      some ((k, v2) :: rest2)
termination_by (fuel, 2 * sizeOf fs)
decreasing_by all_goals simp_wf <;> omega

/-- Substitution mapped over an effect list's argument vectors. -/
def bindEffsList (fuel : Nat) (es : List (Nat × List Ty)) (m : List (Nat × Ty))
    (c : Cache) : Option (List (Nat × List Ty)) :=
  match es with
  | [] => some []
  | (k, args) :: rest => do
      let args2 ← bindTypevarsList fuel args m c
      let rest2 ← bindEffsList fuel rest m c
      some ((k, args2) :: rest2)
termination_by (fuel, 2 * sizeOf es)
decreasing_by all_goals simp_wf <;> omega

/-- Modelled from the spec: `EffectSet::bind_typevars` (types/effects.rs is
not under src/).  Substitutes into each effect's argument types and follows
the extension variable through the mapping and the cache, splicing in the
effects of a row the extension is bound to (spec §3 "EffectSet", §4.1). -/
def bindEffects (fuel : Nat) (effs : List (Nat × List Ty)) (ext : Option Nat)
    (m : List (Nat × Ty)) (c : Cache) : Option Ty :=
  match ext with
  | none => do
      let es ← bindEffsList fuel effs m c
      some (.effects es none)
  | some x =>
      match m.lookup x with
      | some (.effects effs2 ext2) =>
          match fuel with
          | 0 => none
          | fuel + 1 => bindEffects fuel (effs ++ effs2) ext2 m c
      | some (.typeVariable v) => do
          let es ← bindEffsList fuel effs m c
          some (.effects es (some v))
      | some _ => do
          let es ← bindEffsList fuel effs m c
          some (.effects es (some x))
      | none =>
          match c.binding x with
          | .bound (.effects effs2 ext2) =>
              match fuel with
              | 0 => none
              | fuel + 1 => bindEffects fuel (effs ++ effs2) ext2 m c
          | .bound (.typeVariable v) =>
              match fuel with
              | 0 => none
              | fuel + 1 => bindEffects fuel effs (some v) m c
          | .bound _ => do
              let es ← bindEffsList fuel effs m c
              some (.effects es (some x))
          | .unbound _ _ => do
              let es ← bindEffsList fuel effs m c
              some (.effects es (some x))
termination_by (fuel, 2 * sizeOf effs + 2 * sizeOf ext + 1)
decreasing_by all_goals simp_wf <;> omega

end

/-- Result of one inner unification step: `Ok(())` or `Err(())` together
with the mutated staged bindings and cache (allocation of fresh variables
persists even on `Err`), or a panic from an unreachable branch or the
occurs check's recursion limit. -/
inductive UR where
  | ok (b : UnificationBindings) (c : Cache)
  | err (b : UnificationBindings) (c : Cache)
  | panicked
deriving DecidableEq

/-- Result of the field-merging loop of `bind_struct_fields`: the merged
field map plus the mutated state. -/
inductive MR where
  | ok (fields : List (String × Ty)) (b : UnificationBindings) (c : Cache)
  | err (b : UnificationBindings) (c : Cache)
  | panicked
deriving DecidableEq

/-- Result of `get_fields` (which mutates nothing): a field map or `Err(())`,
or the panic of its `TypeInfoBody::Unknown => unreachable!()` branch. -/
inductive GFR where
  | ok (fields : List (String × Ty))
  | err
  | panicked
deriving DecidableEq

/-- Result of the effect-matching loop: the actual side's surplus effects,
the expected side's remaining (surplus) effects, and the mutated state. -/
inductive MER where
  | ok (surplus : List (Nat × List Ty)) (remaining : List (Nat × List Ty))
      (b : UnificationBindings) (c : Cache)
  | err (b : UnificationBindings) (c : Cache)
  | panicked
deriving DecidableEq

/-- Helper extracting the first element satisfying a predicate from an
effect list, returning it and the remaining list. -/
def extractFirst (p : Nat × List Ty → Bool) :
    List (Nat × List Ty) → Option ((Nat × List Ty) × List (Nat × List Ty))
  | [] => none
  | x :: xs =>
      if p x then some (x, xs)
      else
        match extractFirst p xs with
        | none => none
        | some (y, ys) => some (y, x :: ys)

/-- Modelled from the spec: the partner an effect is matched against during
effect-row unification — an identical effect if one is present, otherwise
the first effect with the same id and arity (spec §4.5 "matches effects by
ID+args"). -/
def pickPartner (e : Nat × List Ty) (bs : List (Nat × List Ty)) :
    Option ((Nat × List Ty) × List (Nat × List Ty)) :=
  match extractFirst (fun x => decide (x = e)) bs with
  | some r => some r
  | none =>
      extractFirst (fun x => decide (x.1 = e.1) && decide (x.2.length = e.2.length)) bs

/-- Modelled from the spec: flattening one side of an effect row by
following the extension variable through the staged bindings and the cache
(spec §4.5 "Unification flattens both sides (following extension
bindings)").  Fuel is consumed only on binding jumps. -/
def flattenEffects (fuel : Nat) (effs : List (Nat × List Ty)) (ext : Option Nat)
    (b : UnificationBindings) (c : Cache) :
    Option (List (Nat × List Ty) × Option Nat) :=
  match ext with
  | none => some (effs, none)
  | some x =>
      match findBinding x b c with
      | .unbound _ _ => some (effs, some x)
      | .bound t =>
          match fuel with
          | 0 => none
          | fuel + 1 =>
              match t with
              | .effects effs2 ext2 => flattenEffects fuel (effs ++ effs2) ext2 b c
              | .typeVariable v => flattenEffects fuel effs (some v) b c
              | _ => some (effs, some x)

/-- The filter-map loop of `type_application_bindings`: keep `var -> arg`
pairs whose followed argument differs from the variable itself. -/
def typeApplicationBindingsGo (fuel : Nat) (pairs : List (Nat × Ty)) (c : Cache) :
    Option (List (Nat × Ty)) :=
  match pairs with
  | [] => some []
  | (a, bTy) :: rest => do
      let b2 ← followBindingsInCache fuel bTy c
      let tail ← typeApplicationBindingsGo fuel rest c
      if Ty.typeVariable a ≠ b2 then some ((a, b2) :: tail) else some tail

/-- The `type_application_bindings` helper: bindings from a user-defined
type's declared argument variables to the supplied type arguments. -/
def typeApplicationBindings (fuel : Nat) (info : TypeInfo) (typeargs : List Ty)
    (c : Cache) : Option (List (Nat × Ty)) :=
  typeApplicationBindingsGo fuel (info.args.zip typeargs) c

/-- The `get_fields` helper: the field map of a concrete type, expanding
aliases, failing on unions and unbound variables, panicking on `Unknown`. -/
def getFields (fuel : Nat) (typ : Ty) (args : List Ty)
    (b : UnificationBindings) (c : Cache) : Option GFR :=
  match fuel with
  | 0 => none
  | fuel + 1 =>
      match typ with
      | .userDefined id =>
          let info := c.typeInfos.getD id ⟨[], .unknown⟩
          match info.body with
          | .aliasBody t => getFields fuel t args b c
          | .union => some .err
          | .unknown => some .panicked
          | .structBody fields =>
              if args.isEmpty then some (.ok fields)
              else
                match typeApplicationBindings fuel info args c with
                | none => none
                | some moreBindings =>
                    if moreBindings.isEmpty then some (.ok fields)
                    else
                      match bindFieldsList fuel fields moreBindings c with
                      | none => none
                      | some fields2 => some (.ok fields2)
      | .typeApplication ctor args2 =>
          match followBindingsInCacheAndMap fuel ctor b c with
          | none => none
          | some ctor2 => getFields fuel ctor2 args2 b c
      | .struct fields rest =>
          match c.binding rest with
          | .bound binding => getFields fuel binding args b c
          | .unbound _ _ => some (.ok fields)
      | .typeVariable id =>
          match c.binding id with
          | .bound binding => getFields fuel binding args b c
          | .unbound _ _ => some .err
      | _ => some .err

/-- The `new_row_variable` helper: a fresh row variable at the minimum of
the two (unbound) row variables' levels.  A `none` result models the
`unreachable!()` panic when either row is bound in the cache. -/
def newRowVariable (row1 row2 : Nat) (c : Cache) : Option (Nat × Cache) :=
  match c.binding row1, c.binding row2 with
  | .unbound level1 _, .unbound level2 _ => some (c.allocVar (min level1 level2))
  | _, _ => none

mutual

/-- The `try_unify_with_bindings_inner` kernel.  Arms appear in source
order; or-patterns with guards are expanded into sequential tests matching
Rust's per-alternative guard semantics.  Every function of this block
consumes one unit of (artificial) fuel at entry, so `none` models a
computation still recursing. -/
def tryUnifyInner : Nat → Ty → Ty → UnificationBindings → Cache → Option UR
  | 0, _, _, _, _ => none
  | fuel + 1, actual, expected, b, c =>
      match actual, expected with
      | .primitive p1, .primitive p2 =>
          if p1 = p2 then some (.ok b c) else some (.err b c)
      | .userDefined id1, .userDefined id2 =>
          if id1 = id2 then some (.ok b c) else some (.err b c)
      | .typeVariable id, _ =>
          tryUnifyTypeVariable fuel id actual expected true b c
      | _, .typeVariable id =>
          tryUnifyTypeVariable fuel id expected actual false b c
      | .function ps1 r1 e1 fx1 v1, .function ps2 r2 e2 fx2 v2 =>
          if ps1.length ≠ ps2.length
              ∧ ¬(v1 = true ∧ ps1.length ≤ ps2.length)
              ∧ ¬(v2 = true ∧ ps2.length ≤ ps1.length) then
            some (.err b c)
          else
            match unifyList fuel (ps1.zip ps2) b c with
            | none => none
            | some .panicked => some .panicked
            | some (.err b c) => some (.err b c)
            | some (.ok b c) =>
                match tryUnifyInner fuel r2 r1 b c with
                | none => none
                | some .panicked => some .panicked
                | some (.err b c) => some (.err b c)
                | some (.ok b c) =>
                    match tryUnifyInner fuel e1 e2 b c with
                    | none => none
                    | some .panicked => some .panicked
                    | some (.err b c) => some (.err b c)
                    | some (.ok b c) => tryUnifyInner fuel fx1 fx2 b c
      | .typeApplication ct1 as1, .typeApplication ct2 as2 =>
          match tryUnifyInner fuel ct1 ct2 b c with
          | none => none
          | some .panicked => some .panicked
          | some (.err b c) => some (.err b c)
          | some (.ok b c) =>
              if as1.length ≠ as2.length then some (.err b c)
              else unifyList fuel (as1.zip as2) b c
      | .ref s1 m1 l1, .ref s2 m2 l2 =>
          match tryUnifyInner fuel s1 s2 b c with
          | none => none
          | some .panicked => some .panicked
          | some (.err b c) => some (.err b c)
          | some (.ok b c) =>
              match tryUnifyInner fuel m1 m2 b c with
              | none => none
              | some .panicked => some .panicked
              | some (.err b c) => some (.err b c)
              | some (.ok b c) => tryUnifyInner fuel l1 l2 b c
      | .struct f1 rest1, .struct f2 rest2 =>
          match c.binding rest1 with
          | .bound bound1 => tryUnifyInner fuel bound1 (.struct f2 rest2) b c
          | .unbound _ _ =>
              match c.binding rest2 with
              | .bound bound2 => tryUnifyInner fuel bound2 (.struct f1 rest1) b c
              | .unbound _ _ => bindStructFields fuel f1 f2 rest1 rest2 b c
      | .struct f1 rest1, other =>
          match c.binding rest1 with
          | .bound bound1 => tryUnifyInner fuel bound1 other b c
          | .unbound _ _ => structSubset fuel f1 rest1 other b c
      | other, .struct f2 rest2 =>
          match c.binding rest2 with
          | .bound bound2 => tryUnifyInner fuel bound2 other b c
          | .unbound _ _ => structSubset fuel f2 rest2 other b c
      | .namedGeneric id1 n1, .namedGeneric id2 n2 =>
          if hasBinding id1 b c then
            match findBinding id1 b c with
            | .bound binding => tryUnifyInner fuel binding (.namedGeneric id2 n2) b c
            | .unbound _ _ => some .panicked
          else if hasBinding id2 b c then
            match findBinding id2 b c with
            | .bound binding => tryUnifyInner fuel (.namedGeneric id1 n1) binding b c
            | .unbound _ _ => some .panicked
          else if id1 = id2 then some (.ok b c)
          else
            match findBinding id1 b c, findBinding id2 b c with
            | .unbound _ k1, .unbound _ k2 =>
                if k1 ≠ k2 then some (.err b c)
                else some (.ok (b.insert id1 (.namedGeneric id2 n2)) c)
            | _, _ => some .panicked
      | .namedGeneric id1 _, other =>
          if hasBinding id1 b c then
            match findBinding id1 b c with
            | .bound binding => tryUnifyInner fuel binding other b c
            | .unbound _ _ => some .panicked
          else some (.err b c)
      | other, .namedGeneric id2 _ =>
          if hasBinding id2 b c then
            match findBinding id2 b c with
            | .bound binding => tryUnifyInner fuel other binding b c
            | .unbound _ _ => some .panicked
          else some (.err b c)
      | .effects es1 x1, .effects es2 x2 => unifyEffects fuel es1 x1 es2 x2 b c
      | .tag t1, .tag t2 =>
          if t1 = t2 then some (.ok b c)
          else
            match t1, t2 with
            | .mutable, .immutable => some (.ok b c)
            | .owned, .shared => some (.ok b c)
            | _, _ => some (.err b c)
      | _, _ => some (.err b c)
termination_by structural f _ _ _ _ => f

/-- The `try_unify_type_variable_with_bindings` helper.  Note that the
`OccursResult`'s level bindings are dropped, exactly as in the source. -/
def tryUnifyTypeVariable : Nat → Nat → Ty → Ty → Bool → UnificationBindings → Cache → Option UR
  | 0, _, _, _, _, _, _ => none
  | fuel + 1, id, a, bTy, typevarOnLhs, b, c =>
      match findBinding id b c with
      | .bound a2 =>
          if typevarOnLhs then tryUnifyInner fuel a2 bTy b c
          else tryUnifyInner fuel bTy a2 b c
      | .unbound aLevel _ =>
          match followBindingsInCacheAndMap fuel bTy b c with
          | none => none
          | some b2 =>
              if a ≠ b2 then
                match occursHelper id aLevel b2 b RECURSION_LIMIT c with
                | .panicked => some .panicked
                | .res r =>
                    if r.occurs then some (.err b c)
                    else some (.ok (b.insert id b2) c)
              else some (.ok b c)
termination_by structural f _ _ _ _ _ _ => f

/-- Pointwise unification of a list of type pairs (the source's `for`
loops over `zip`ped parameter and argument lists). -/
def unifyList : Nat → List (Ty × Ty) → UnificationBindings → Cache → Option UR
  | 0, _, _, _ => none
  | fuel + 1, pairs, b, c =>
      match pairs with
      | [] => some (.ok b c)
      | (x, y) :: rest =>
          match tryUnifyInner fuel x y b c with
          | none => none
          | some .panicked => some .panicked
          | some (.err b c) => some (.err b c)
          | some (.ok b c) => unifyList fuel rest b c
termination_by structural f _ _ _ => f

/-- The `bind_struct_fields` helper for `Struct`/`Struct` unification. -/
def bindStructFields : Nat → List (String × Ty) → List (String × Ty) → Nat → Nat → UnificationBindings → Cache → Option UR
  | 0, _, _, _, _, _, _ => none
  | fuel + 1, fields1, fields2, rest1, rest2, b, c =>
      match mergeFields fuel fields1 fields2 b c with
      | none => none
      | some .panicked => some .panicked
      | some (.err b c) => some (.err b c)
      | some (.ok newFields b c) =>
          if newFields.length ≠ fields1.length ∧ newFields.length ≠ fields2.length then
            match tryUnifyTypeVariable fuel rest1 (.typeVariable rest1)
                (.typeVariable rest2) true b c with
            | none => none
            | some .panicked => some .panicked
            | some (.err b c) => some (.err b c)
            | some (.ok b c) =>
                match newRowVariable rest1 rest2 c with
                | none => some .panicked
                | some (newRest, c) =>
                    some (.ok (b.insert rest2 (.struct newFields newRest)) c)
          else if newFields.length ≠ fields1.length then
            tryUnifyTypeVariable fuel rest1 (.typeVariable rest1)
              (.struct newFields rest2) true b c
          else if newFields.length ≠ fields2.length then
            tryUnifyTypeVariable fuel rest2 (.typeVariable rest2)
              (.struct newFields rest1) false b c
          else some (.ok b c)
termination_by structural f _ _ _ _ _ _ => f

/-- The field-merging loop of `bind_struct_fields`: unify fields present in
both maps, insert the others. -/
def mergeFields : Nat → List (String × Ty) → List (String × Ty) → UnificationBindings → Cache → Option MR
  | 0, _, _, _, _ => none
  | fuel + 1, newFields, fields2, b, c =>
      match fields2 with
      | [] => some (.ok newFields b c)
      | (name, typ2) :: rest =>
          match newFields.lookup name with
          | some typ1 =>
              match tryUnifyInner fuel typ1 typ2 b c with
              | none => none
              | some .panicked => some .panicked
              | some (.err b c) => some (.err b c)
              | some (.ok b c) => mergeFields fuel newFields rest b c
          | none => mergeFields fuel (insertField name typ2 newFields) rest b c
termination_by structural f _ _ _ _ => f

/-- The body of the `Struct`/`other` (subset) unification arm. -/
def structSubset : Nat → List (String × Ty) → Nat → Ty → UnificationBindings → Cache → Option UR
  | 0, _, _, _, _, _ => none
  | fuel + 1, fields1, rest, other, b, c =>
      match getFields fuel other [] b c with
      | none => none
      | some .panicked => some .panicked
      | some .err => some (.err b c)
      | some (.ok fields2) =>
          match bindStructFieldsSubset fuel fields1 fields2 b c with
          | none => none
          | some .panicked => some .panicked
          | some (.err b c) => some (.err b c)
          | some (.ok b c) => some (.ok (b.insert rest other) c)
termination_by structural f _ _ _ _ _ => f

/-- The `bind_struct_fields_subset` helper: a struct's fields must be a
subset of the template's fields, unifying the shared ones. -/
def bindStructFieldsSubset : Nat → List (String × Ty) → List (String × Ty) → UnificationBindings → Cache → Option UR
  | 0, _, _, _, _ => none
  | fuel + 1, fields, template, b, c =>
      if fields.length > template.length then some (.err b c)
      else subsetGo fuel fields template b c
termination_by structural f _ _ _ _ => f

/-- The per-field loop of `bind_struct_fields_subset`. -/
def subsetGo : Nat → List (String × Ty) → List (String × Ty) → UnificationBindings → Cache → Option UR
  | 0, _, _, _, _ => none
  | fuel + 1, fields, template, b, c =>
      match fields with
      | [] => some (.ok b c)
      | (name, field) :: rest =>
          match template.lookup name with
          | some templateField =>
              match tryUnifyInner fuel templateField field b c with
              | none => none
              | some .panicked => some .panicked
              | some (.err b c) => some (.err b c)
              | some (.ok b c) => subsetGo fuel rest template b c
          | none => some (.err b c)
termination_by structural f _ _ _ _ => f

/-- Modelled from the spec: `EffectSet::try_unify_with_bindings`
(types/effects.rs is not under src/).  Flattens both sides following
extension bindings, matches effects by id and arguments unifying the
argument vectors, pushes surplus effects into the opposite extension
variable, and fails when a side with no extension faces surplus effects
(spec §4.5). -/
def unifyEffects : Nat → List (Nat × List Ty) → Option Nat → List (Nat × List Ty) → Option Nat → UnificationBindings → Cache → Option UR
  | 0, _, _, _, _, _, _ => none
  | fuel + 1, effs1, ext1, effs2, ext2, b, c =>
      match flattenEffects fuel effs1 ext1 b c with
      | none => none
      | some (aEffs, aExt) =>
          match flattenEffects fuel effs2 ext2 b c with
          | none => none
          | some (bEffs, bExt) =>
              match matchEffects fuel aEffs bEffs b c with
              | none => none
              | some .panicked => some .panicked
              | some (.err b c) => some (.err b c)
              | some (.ok surplusA surplusB b c) =>
                  match surplusA, surplusB with
                  | [], [] => unifyExts fuel aExt bExt b c
                  | _ :: _, [] =>
                      match bExt with
                      | none => some (.err b c)
                      | some y =>
                          some (.ok (b.insert y (.effects surplusA aExt)) c)
                  | [], _ :: _ =>
                      match aExt with
                      | none => some (.err b c)
                      | some x =>
                          some (.ok (b.insert x (.effects surplusB bExt)) c)
                  | _ :: _, _ :: _ =>
                      match aExt, bExt with
                      | some x, some y =>
                          match c.allocVar c.curLevel with
                          | (k, c) =>
                              some (.ok ((b.insert x (.effects surplusB (some k))).insert y
                                (.effects surplusA (some k))) c)
                      | _, _ => some (.err b c)
termination_by structural f _ _ _ _ _ _ => f

/-- Modelled from the spec: the matching loop of effect-row unification.
Each actual-side effect is paired with a partner (see `pickPartner`) whose
argument vector it is unified with; unmatched effects become surplus. -/
def matchEffects : Nat → List (Nat × List Ty) → List (Nat × List Ty) → UnificationBindings → Cache → Option MER
  | 0, _, _, _, _ => none
  | fuel + 1, aList, bList, b, c =>
      match aList with
      | [] => some (.ok [] bList b c)
      | e :: rest =>
          match pickPartner e bList with
          | none =>
              match matchEffects fuel rest bList b c with
              | some (.ok surplus remaining b c) =>
                  some (.ok (e :: surplus) remaining b c)
              | other => other
          | some (partner, bRest) =>
              match unifyList fuel (e.2.zip partner.2) b c with
              | none => none
              | some .panicked => some .panicked
              | some (.err b c) => some (.err b c)
              | some (.ok b c) => matchEffects fuel rest bRest b c
termination_by structural f _ _ _ _ => f

/-- Modelled from the spec: unification of the two extension variables when
neither side has surplus effects (spec §4.4 table row "Effect row
inference": "combination unifies their extensions"). -/
def unifyExts : Nat → Option Nat → Option Nat → UnificationBindings → Cache → Option UR
  | 0, _, _, _, _ => none
  | fuel + 1, aExt, bExt, b, c =>
      match aExt, bExt with
      | none, none => some (.ok b c)
      | some x, some y =>
          if x = y then some (.ok b c)
          else tryUnifyInner fuel (.typeVariable x) (.typeVariable y) b c
      | some x, none => some (.ok (b.insert x (.effects [] none)) c)
      | none, some y => some (.ok (b.insert y (.effects [] none)) c)
termination_by structural f _ _ _ _ => f

end

/-- Result of the `try_unify` wrapper: committed-to-be bindings on success,
or a diagnostic value (represented by the cache it would be pushed onto). -/
inductive TUR where
  | ok (b : UnificationBindings) (c : Cache)
  | err (c : Cache)
  | panicked
deriving DecidableEq

/-- The `try_unify` wrapper: run the kernel on an empty staged binding set,
turning an inner `Err(())` into a diagnostic-carrying error. -/
def tryUnify (fuel : Nat) (actual expected : Ty) (c : Cache) : Option TUR :=
  match tryUnifyInner fuel actual expected UnificationBindings.empty c with
  | none => none
  | some .panicked => some .panicked
  | some (.ok b c) => some (.ok b c)
  | some (.err _ c) => some (.err c)

/-- Observable outcome of the top-level `unify`. -/
inductive UnifyOut where
  | done (c : Cache)
  | panicked
deriving DecidableEq

/-- The top-level `unify`: commit the staged bindings on success, push one
diagnostic on failure (`perform_bindings_or_push_error`). -/
def unify (fuel : Nat) (actual expected : Ty) (c : Cache) : Option UnifyOut :=
  match tryUnify fuel actual expected c with
  | none => none
  | some .panicked => some .panicked
  | some (.ok b c) => some (.done (b.perform c))
  | some (.err c) => some (.done c.pushDiag)

/-- The `level_is_polymorphic` helper: `level.0 >= CURRENT_LEVEL`. -/
def levelIsPolymorphic (level : Nat) (c : Cache) : Bool :=
  c.curLevel ≤ level

/-- Result of the `find_all_typevars` traversal: the collected variable ids,
or the "Recursion limit hit in find_all_typevars" panic. -/
inductive FAV where
  | found (ids : List Nat)
  | panicked
deriving DecidableEq

/-- Sequencing of two `find_all_typevars` results, appending the collected
ids.  A `none` (still-recursing) result wins over a panic, which is sound:
`none` carries no information. -/
def favSeq (x y : Option FAV) : Option FAV :=
  match x, y with
  | none, _ => none
  | some .panicked, _ => some .panicked
  | some (.found _), none => none
  | some (.found _), some .panicked => some .panicked
  | some (.found ids), some (.found ids2) => some (.found (ids ++ ids2))

mutual

/-- The `find_all_typevars_helper` traversal.  Its `fuel` is the real fuel
of the source, decremented (and checked) only inside
`find_typevars_in_typevar_binding`; the source's `Struct`/`Bound` case jumps
through the cache without touching the fuel, so that jump consumes the
artificial `jfuel` instead. -/
def findAllTypevarsHelper (jfuel : Nat) (typ : Ty) (polyOnly : Bool)
    (c : Cache) (fuel : Nat) : Option FAV :=
  match typ with
  | .primitive _ => some (.found [])
  | .userDefined _ => some (.found [])
  | .tag _ => some (.found [])
  | .typeVariable id => findTypevarsInTypevarBinding jfuel id polyOnly c fuel
  | .namedGeneric id _ => findTypevarsInTypevarBinding jfuel id polyOnly c fuel
  | .function params ret env effs _ =>
      favSeq (findAllTypevarsList jfuel params polyOnly c fuel)
        (favSeq (findAllTypevarsHelper jfuel env polyOnly c fuel)
          (favSeq (findAllTypevarsHelper jfuel ret polyOnly c fuel)
            (findAllTypevarsHelper jfuel effs polyOnly c fuel)))
  | .typeApplication ctor args =>
      favSeq (findAllTypevarsHelper jfuel ctor polyOnly c fuel)
        (findAllTypevarsList jfuel args polyOnly c fuel)
  | .ref sh mu lt =>
      favSeq (findAllTypevarsHelper jfuel mu polyOnly c fuel)
        (favSeq (findAllTypevarsHelper jfuel sh polyOnly c fuel)
          (findAllTypevarsHelper jfuel lt polyOnly c fuel))
  | .struct fields id =>
      match c.binding id with
      | .bound t =>
          match jfuel with
          | 0 => none
          | jfuel + 1 => findAllTypevarsHelper jfuel t polyOnly c fuel
      | .unbound _ _ =>
          favSeq (findTypevarsInTypevarBinding jfuel id polyOnly c fuel)
            (findAllTypevarsFields jfuel fields polyOnly c fuel)
  | .effects effs ext =>
      favSeq
        (match ext with
         | some x => findTypevarsInTypevarBinding jfuel x polyOnly c fuel
         | none => some (.found []))
        (findAllTypevarsEffs jfuel effs polyOnly c fuel)
termination_by (jfuel, fuel, 2 * sizeOf typ + 1)

/-- Iteration of `find_all_typevars_helper` over a list of types. -/
def findAllTypevarsList (jfuel : Nat) (ts : List Ty) (polyOnly : Bool)
    (c : Cache) (fuel : Nat) : Option FAV :=
  match ts with
  | [] => some (.found [])
  | t :: rest =>
      favSeq (findAllTypevarsHelper jfuel t polyOnly c fuel)
        (findAllTypevarsList jfuel rest polyOnly c fuel)
termination_by (jfuel, fuel, 2 * sizeOf ts)

/-- Iteration of `find_all_typevars_helper` over a struct's field values. -/
def findAllTypevarsFields (jfuel : Nat) (fs : List (String × Ty))
    (polyOnly : Bool) (c : Cache) (fuel : Nat) : Option FAV :=
  match fs with
  | [] => some (.found [])
  | (_, t) :: rest =>
      favSeq (findAllTypevarsHelper jfuel t polyOnly c fuel)
        (findAllTypevarsFields jfuel rest polyOnly c fuel)
termination_by (jfuel, fuel, 2 * sizeOf fs)

/-- Iteration of `find_all_typevars_helper` over the argument vectors of an
effect list. -/
def findAllTypevarsEffs (jfuel : Nat) (es : List (Nat × List Ty))
    (polyOnly : Bool) (c : Cache) (fuel : Nat) : Option FAV :=
  match es with
  | [] => some (.found [])
  | (_, args) :: rest =>
      favSeq (findAllTypevarsList jfuel args polyOnly c fuel)
        (findAllTypevarsEffs jfuel rest polyOnly c fuel)
termination_by (jfuel, fuel, 2 * sizeOf es)

/-- The `find_typevars_in_typevar_binding` helper: panics when the real
fuel runs out, follows a bound variable, and keeps an unbound one when it
is polymorphic (or when all variables were requested). -/
def findTypevarsInTypevarBinding (jfuel : Nat) (id : Nat) (polyOnly : Bool)
    (c : Cache) (fuel : Nat) : Option FAV :=
  match fuel with
  | 0 => some .panicked
  | fuel + 1 =>
      match c.binding id with
      | .bound t => findAllTypevarsHelper jfuel t polyOnly c fuel
      | .unbound level _ =>
          if !polyOnly || levelIsPolymorphic level c then some (.found [id])
          else some (.found [])
termination_by (jfuel, fuel, 0)

end

/-- The `find_all_typevars` entry point, which supplies `RECURSION_LIMIT`. -/
def findAllTypevars (jfuel : Nat) (typ : Ty) (polyOnly : Bool) (c : Cache) :
    Option FAV :=
  findAllTypevarsHelper jfuel typ polyOnly c RECURSION_LIMIT

/-- The `GeneralizedType` enum. -/
inductive GeneralizedType where
  | monoType (t : Ty)
  | polyType (typevars : List Nat) (t : Ty)
deriving DecidableEq

/-- A trait constraint, reduced to the part `instantiate` touches: the
trait id and the argument types. -/
structure TraitConstraint where
  traitId : Nat
  args : List Ty
deriving DecidableEq

/-- Minting of one fresh variable per quantified variable, in order
(`typevars_to_replace.insert(var, next_type_variable_id(cache))`). -/
def mintForVars (vars : List Nat) (c : Cache) : List (Nat × Nat) × Cache :=
  match vars with
  | [] => ([], c)
  | v :: rest =>
      match c.allocVar c.curLevel with
      | (id, c) =>
          match mintForVars rest c with
          | (tail, c) => ((v, id) :: tail, c)

/-- The `find_all_typevars_in_traits` helper: polymorphic variables of each
constraint's argument types, in order. -/
def findAllTypevarsInTraits (jfuel : Nat) (traits : List TraitConstraint)
    (c : Cache) : Option FAV :=
  match traits with
  | [] => some (.found [])
  | t :: rest =>
      favSeq (findAllTypevarsList jfuel t.args true c RECURSION_LIMIT)
        (findAllTypevarsInTraits jfuel rest c)

/-- Extension of the substitution to the traits' free variables:
`typevars_to_replace.entry(var).or_insert_with(next_type_variable_id)`. -/
def extendForVars (vars : List Nat) (m : List (Nat × Nat)) (c : Cache) :
    List (Nat × Nat) × Cache :=
  match vars with
  | [] => (m, c)
  | v :: rest =>
      match m.lookup v with
      | some _ => extendForVars rest m c
      | none =>
          match c.allocVar c.curLevel with
          | (id, c) => extendForVars rest (m ++ [(v, id)]) c

/-- Conversion of a variable-to-variable map into type bindings
(`(k, v) -> (k, TypeVariable(v))`). -/
def toTypeBindings (m : List (Nat × Nat)) : List (Nat × Ty) :=
  m.map (fun p => (p.1, Ty.typeVariable p.2))

/-- Replacement of each constraint's argument types through the
substitution (the `constraints.iter_mut()` loop of `instantiate`). -/
def replaceConstraints (fuel : Nat) (cons : List TraitConstraint)
    (m : List (Nat × Ty)) (c : Cache) : Option (List TraitConstraint) :=
  match cons with
  | [] => some []
  | t :: rest => do
      let args2 ← bindTypevarsList fuel t.args m c
      let rest2 ← replaceConstraints fuel rest m c
      some ({ t with args := args2 } :: rest2)

/-- Result of `GeneralizedType::instantiate`: the monotype, the
instantiated constraints, the substitution used, and the grown cache. -/
inductive IRes where
  | ok (typ : Ty) (constraints : List TraitConstraint)
      (bindings : List (Nat × Ty)) (c : Cache)
  | panicked
deriving DecidableEq

/-- The `GeneralizedType::instantiate` method: mint a fresh variable per
quantified variable, replace them in the type, extend the substitution over
the constraints' polymorphic free variables, and replace in the
constraints' argument lists. -/
def instantiate (fuel : Nat) (g : GeneralizedType)
    (constraints : List TraitConstraint) (c : Cache) : Option IRes :=
  match g with
  | .monoType t => some (.ok t constraints [] c)
  | .polyType typevars t =>
      match mintForVars typevars c with
      | (m, c) =>
          match bindTypevars fuel t (toTypeBindings m) c with
          | none => none
          | some t2 =>
              match findAllTypevarsInTraits fuel constraints c with
              | none => none
              | some .panicked => some .panicked
              | some (.found vars) =>
                  match extendForVars vars m c with
                  | (m2, c) =>
                      match replaceConstraints fuel constraints (toTypeBindings m2) c with
                      | none => none
                      | some cons2 => some (.ok t2 cons2 (toTypeBindings m2) c)

/-- The `PAIR_TYPE` type id (a fixed id assigned during cache setup). -/
def PAIR_TYPE_ID : Nat := 0

/-- The `PrimitiveType::UnitType` code. -/
def unitPrim : Nat := 0

/-- The `PrimitiveType::Ptr` code. -/
def ptrPrim : Nat := 1

/-- The right-nested pair construction loop inside `make_tuple_type`. -/
def makeTupleGo : List Ty → Option Ty
  | [] => none
  | [t] => some t
  | t :: rest =>
      (makeTupleGo rest).map
        (fun r => .typeApplication (.userDefined PAIR_TYPE_ID) [t, r])

/-- The `make_tuple_type` helper.  The source asserts `types.len() > 1`;
`none` models that assertion failing. -/
def makeTupleType (types : List Ty) : Option Ty :=
  if types.length > 1 then makeTupleGo types else none

/-- The `infer_closure_environment` helper, abstracted over the (monotype)
types of the closure environment's capture variables: unit for a non-closure,
the single capture's type, or a tuple of all captures. -/
def inferClosureEnvironment (envTypes : List Ty) : Option Ty :=
  match envTypes with
  | [] => some (.primitive unitPrim)
  | [t] => some t
  | ts => makeTupleType ts

/-- The `resume_environment_type` helper: a continuation pointer, tupled
with the handle expression's free variables when there are any. -/
def resumeEnvironmentType (freeVariables : List (Nat × Ty)) : Option Ty :=
  let continuationType : Ty :=
    .typeApplication (.primitive ptrPrim) [.primitive unitPrim]
  if freeVariables.isEmpty then some continuationType
  else makeTupleType (continuationType :: freeVariables.map Prod.snd)

mutual

/-- The `contains_any_typevars_from_list` traversal (no recursion guard in
the source; fuel is consumed on cache jumps only). -/
def containsAnyTypevarsFromList (fuel : Nat) (typ : Ty) (list : List Nat)
    (c : Cache) : Option Bool :=
  match typ with
  | .primitive _ => some false
  | .userDefined _ => some false
  | .tag _ => some false
  | .typeVariable id => tvContainsAny fuel id list c
  | .namedGeneric id _ => tvContainsAny fuel id list c
  | .function params ret env effs _ => do
      let x1 ← containsAnyList fuel params list c
      if x1 then some true else do
        let x2 ← containsAnyTypevarsFromList fuel ret list c
        if x2 then some true else do
          let x3 ← containsAnyTypevarsFromList fuel env list c
          if x3 then some true
          else containsAnyTypevarsFromList fuel effs list c
  | .ref sh mu lt => do
      let x1 ← containsAnyTypevarsFromList fuel mu list c
      if x1 then some true else do
        let x2 ← containsAnyTypevarsFromList fuel sh list c
        if x2 then some true
        else containsAnyTypevarsFromList fuel lt list c
  | .typeApplication ctor args => do
      let x1 ← containsAnyTypevarsFromList fuel ctor list c
      if x1 then some true else containsAnyList fuel args list c
  | .struct fields id => do
      let x1 ← tvContainsAny fuel id list c
      if x1 then some true
      else containsAnyFields fuel fields list c
  | .effects effs ext => do
      let x1 ←
        match ext with
        | some x => tvContainsAny fuel x list c
        | none => some false
      if x1 then some true
      else containsAnyEffs fuel effs list c
termination_by (fuel, 2 * sizeOf typ + 1)
decreasing_by all_goals simp_wf <;> omega

/-- Short-circuiting `any` over a list of types. -/
def containsAnyList (fuel : Nat) (ts : List Ty) (list : List Nat) (c : Cache) :
    Option Bool :=
  match ts with
  | [] => some false
  | t :: rest => do
      let x ← containsAnyTypevarsFromList fuel t list c
      if x then some true else containsAnyList fuel rest list c
termination_by (fuel, 2 * sizeOf ts)
decreasing_by all_goals simp_wf <;> omega

/-- Short-circuiting `any` over a struct's field values. -/
def containsAnyFields (fuel : Nat) (fs : List (String × Ty)) (list : List Nat)
    (c : Cache) : Option Bool :=
  match fs with
  | [] => some false
  | (_, t) :: rest => do
      let x ← containsAnyTypevarsFromList fuel t list c
      if x then some true else containsAnyFields fuel rest list c
termination_by (fuel, 2 * sizeOf fs)
decreasing_by all_goals simp_wf <;> omega

/-- Short-circuiting `any` over the argument vectors of an effect list. -/
def containsAnyEffs (fuel : Nat) (es : List (Nat × List Ty)) (list : List Nat)
    (c : Cache) : Option Bool :=
  match es with
  | [] => some false
  | (_, args) :: rest => do
      let x ← containsAnyList fuel args list c
      if x then some true else containsAnyEffs fuel rest list c
termination_by (fuel, 2 * sizeOf es)
decreasing_by all_goals simp_wf <;> omega

/-- The `type_variable_contains_any_typevars_from_list` helper. -/
def tvContainsAny (fuel : Nat) (id : Nat) (list : List Nat) (c : Cache) :
    Option Bool :=
  match c.binding id with
  | .bound t =>
      match fuel with
      | 0 => none
      | fuel + 1 => containsAnyTypevarsFromList fuel t list c
  | .unbound _ _ => some (list.contains id)
termination_by (fuel, 0)
decreasing_by all_goals simp_wf <;> omega

end

mutual

/-- Syntactic collector of every type-variable id mentioned in a type
(inference variables, named generics, struct rows and effect extension
variables), used to state freshness properties; it consults no cache. -/
def tyVarIds : Ty → List Nat
  | .primitive _ => []
  | .tag _ => []
  | .userDefined _ => []
  | .typeVariable id => [id]
  | .namedGeneric id _ => [id]
  | .function params ret env effs _ =>
      tyVarIdsList params ++ tyVarIds ret ++ tyVarIds env ++ tyVarIds effs
  | .typeApplication ctor args => tyVarIds ctor ++ tyVarIdsList args
  | .ref sh mu lt => tyVarIds sh ++ tyVarIds mu ++ tyVarIds lt
  | .struct fields row => row :: tyVarIdsFields fields
  | .effects effs ext => tyVarIdsEffs effs ++ ext.toList
termination_by typ => sizeOf typ
decreasing_by all_goals simp_wf <;> omega

/-- Syntactic variable ids of a list of types. -/
def tyVarIdsList : List Ty → List Nat
  | [] => []
  | t :: rest => tyVarIds t ++ tyVarIdsList rest
termination_by ts => sizeOf ts
decreasing_by all_goals simp_wf <;> omega

/-- Syntactic variable ids of a struct field list. -/
def tyVarIdsFields : List (String × Ty) → List Nat
  | [] => []
  | (_, t) :: rest => tyVarIds t ++ tyVarIdsFields rest
termination_by fs => sizeOf fs
decreasing_by all_goals simp_wf <;> omega

/-- Syntactic variable ids of an effect list. -/
def tyVarIdsEffs : List (Nat × List Ty) → List Nat
  | [] => []
  | (_, args) :: rest => tyVarIdsList args ++ tyVarIdsEffs rest
termination_by es => sizeOf es
decreasing_by all_goals simp_wf <;> omega

end

/-- Claim C1 (code bug): the spec says the occurs check records a
level-demotion `(u, L_v)` for every unbound `u` of greater level reachable
in `T`, so that committing lowers `u`'s level.  The code instead keys the
entry to the needle `v` itself (`typevars_match` line 634 builds
`vec![(needle, level)]`), and `try_unify_type_variable_with_bindings`
then drops the returned `OccursResult`'s level bindings entirely, so the
staged bindings carry no demotion at all and `u` keeps its level after the
commit.  Failing input: `v = 0` unbound at level 1 unified with
`T = TypeVariable 1` where `u = 1` is unbound at level 2. -/
theorem c1_level_demotion_keyed_to_needle_and_dropped :
    typevarsMatch 0 1 1 UnificationBindings.empty 99
        ⟨[.unbound 1 0, .unbound 2 0], [], 0, 0⟩
      = .res ⟨false, [(0, 1)]⟩
    ∧ tryUnify 10 (.typeVariable 0) (.typeVariable 1)
        ⟨[.unbound 1 0, .unbound 2 0], [], 0, 0⟩
      = some (.ok ⟨[(0, .typeVariable 1)], []⟩ ⟨[.unbound 1 0, .unbound 2 0], [], 0, 0⟩)
    ∧ unify 10 (.typeVariable 0) (.typeVariable 1)
        ⟨[.unbound 1 0, .unbound 2 0], [], 0, 0⟩
      = some (.done ⟨[.bound (.typeVariable 1), .unbound 2 0], [], 0, 0⟩) := by
  refine ⟨by decide, by decide, by decide⟩

/-- Helper: on the one-entry cyclic cache `0 ↦ Bound(TypeVariable 0)`,
`bind_typevars` never returns, whatever the recursion depth allowed. -/
theorem bindTypevars_cyclic_diverges :
    ∀ fuel, bindTypevars fuel (.typeVariable 0) []
      ⟨[.bound (.typeVariable 0)], [], 0, 0⟩ = none := by
  intro fuel
  induction fuel with
  | zero =>
      rw [bindTypevars]
      show bindTypevar 0 0 [] _ = none
      rw [bindTypevar]
      rfl
  | succ fuel ih =>
      rw [bindTypevars]
      show bindTypevar (fuel + 1) 0 [] _ = none
      rw [bindTypevar]
      show bindTypevars fuel (.typeVariable 0) [] _ = none
      exact ih

/-- Helper: `contains_any_typevars_from_list` never returns on the same
cyclic cache. -/
theorem containsAny_cyclic_diverges :
    ∀ fuel, containsAnyTypevarsFromList fuel (.typeVariable 0) [0]
      ⟨[.bound (.typeVariable 0)], [], 0, 0⟩ = none := by
  intro fuel
  induction fuel with
  | zero =>
      rw [containsAnyTypevarsFromList]
      show tvContainsAny 0 0 [0] _ = none
      rw [tvContainsAny]
      rfl
  | succ fuel ih =>
      rw [containsAnyTypevarsFromList]
      show tvContainsAny (fuel + 1) 0 [0] _ = none
      rw [tvContainsAny]
      show containsAnyTypevarsFromList fuel (.typeVariable 0) [0] _ = none
      exact ih

/-- Helper: `follow_bindings_in_cache` never returns on the same cyclic
cache. -/
theorem followBindings_cyclic_diverges :
    ∀ fuel, followBindingsInCache fuel (.typeVariable 0)
      ⟨[.bound (.typeVariable 0)], [], 0, 0⟩ = none := by
  intro fuel
  induction fuel with
  | zero => rfl
  | succ fuel ih =>
      show followBindingsInCache fuel (.typeVariable 0) _ = none
      exact ih

/-- Claim C4 (corrected): not every structural type traversal is guarded by
the recursion-fuel cap.  The `occurs` and `find_all_typevars` traversals
panic on fuel exhaustion, but `bind_typevars`,
`contains_any_typevars_from_list` and `follow_bindings_in_cache` carry no
fuel at all: on the one-entry cyclic cache `0 ↦ Bound(TypeVariable 0)` they
never abort, recursing forever whatever depth they are allowed. -/
theorem c4_amended_only_occurs_and_find_typevars_are_fuel_guarded :
    (∀ needle level typ b c, occursHelper needle level typ b 0 c = .panicked)
    ∧ (∀ jfuel id polyOnly c,
        findTypevarsInTypevarBinding jfuel id polyOnly c 0 = some .panicked)
    ∧ (∀ fuel, bindTypevars fuel (.typeVariable 0) []
        ⟨[.bound (.typeVariable 0)], [], 0, 0⟩ = none)
    ∧ (∀ fuel, containsAnyTypevarsFromList fuel (.typeVariable 0) [0]
        ⟨[.bound (.typeVariable 0)], [], 0, 0⟩ = none)
    ∧ (∀ fuel, followBindingsInCache fuel (.typeVariable 0)
        ⟨[.bound (.typeVariable 0)], [], 0, 0⟩ = none) := by
  refine ⟨?_, ?_, bindTypevars_cyclic_diverges, containsAny_cyclic_diverges,
    followBindings_cyclic_diverges⟩
  · intro needle level typ b c
    simp [occursHelper]
  · intro jfuel id polyOnly c
    simp [findTypevarsInTypevarBinding]

/-- Claim C4's counterexample: `bind_typevars` is a structural type
traversal that follows cache bindings, yet on a cyclic cache it recurses
past three times the recursion-fuel cap without the controlled abort the
claim promises (the occurs check, by contrast, panics within the cap on
the same cache). -/
theorem c4_counterexample_bind_typevars_has_no_fuel_cap :
    bindTypevars 300 (.typeVariable 0) []
        ⟨[.bound (.typeVariable 0)], [], 0, 0⟩ = none
    ∧ occursHelper 0 0 (.typeVariable 0) UnificationBindings.empty RECURSION_LIMIT
        ⟨[.bound (.typeVariable 0)], [], 0, 0⟩ = .panicked := by
  refine ⟨bindTypevars_cyclic_diverges 300, ?_⟩
  simp [occursHelper, typevarsMatch, findBinding, Cache.binding, List.getD,
    RECURSION_LIMIT, UnificationBindings.empty, List.lookup]

/-- Claim C5 (confirmed): tag unification is one-directional.  Two tags
unify exactly when they are equal, or actual is `Mutable` and expected is
`Immutable`, or actual is `Owned` and expected is `Shared`; in every case
the staged bindings and cache are untouched.  At the `unify` level the two
allowed subsumptions commit nothing and push no diagnostic, while the two
reversed orders push exactly one diagnostic each. -/
theorem c5_tag_subsumption_is_one_directional :
    (∀ (fuel : Nat) (t1 t2 : TypeTag) (b : UnificationBindings) (c : Cache),
      tryUnifyInner (fuel + 1) (.tag t1) (.tag t2) b c =
        if t1 = t2 ∨ (t1 = .mutable ∧ t2 = .immutable) ∨ (t1 = .owned ∧ t2 = .shared)
        then some (.ok b c) else some (.err b c))
    ∧ unify 10 (.tag .mutable) (.tag .immutable) ⟨[], [], 0, 0⟩
        = some (.done ⟨[], [], 0, 0⟩)
    ∧ unify 10 (.tag .owned) (.tag .shared) ⟨[], [], 0, 0⟩
        = some (.done ⟨[], [], 0, 0⟩)
    ∧ unify 10 (.tag .immutable) (.tag .mutable) ⟨[], [], 0, 0⟩
        = some (.done ⟨[], [], 1, 0⟩)
    ∧ unify 10 (.tag .shared) (.tag .owned) ⟨[], [], 0, 0⟩
        = some (.done ⟨[], [], 1, 0⟩) := by
  refine ⟨?_, ?_, ?_, ?_, ?_⟩
  · intro fuel t1 t2 b c
    cases t1 <;> cases t2 <;> simp [tryUnifyInner]
  all_goals
    simp [unify, tryUnify, tryUnifyInner, UnificationBindings.empty,
      UnificationBindings.perform, performTypeBindings, Cache.pushDiag]

/-- Claim C9 (confirmed): whenever `follow_bindings_in_cache` terminates
(the binding chain is acyclic within the given depth), its result is never
a `Bound` type variable — it is a non-variable type or an `Unbound`
variable — and the function is idempotent: following the result again, at
any depth, returns it unchanged. -/
theorem c9_follow_bindings_returns_unbound_and_is_idempotent :
    ∀ (fuel : Nat) (typ : Ty) (c : Cache) (t : Ty),
      followBindingsInCache fuel typ c = some t →
      (∀ id Y, t = .typeVariable id → c.binding id ≠ .bound Y)
      ∧ (∀ fuel2, followBindingsInCache fuel2 t c = some t) := by
  intro fuel
  induction fuel with
  | zero =>
      intro typ c t h
      cases typ
      case typeVariable id =>
        simp only [followBindingsInCache] at h
        cases hb : c.binding id with
        | bound Y => rw [hb] at h; simp at h
        | unbound l k =>
            rw [hb] at h
            injection h with h
            subst h
            refine ⟨?_, ?_⟩
            · intro id2 Y ht
              injection ht with hid
              subst hid
              rw [hb]
              simp
            · intro fuel2
              simp only [followBindingsInCache, hb]
      all_goals
        simp only [followBindingsInCache] at h
        injection h with h
        subst h
        exact ⟨by intro id Y ht; simp at ht,
               by intro fuel2; simp [followBindingsInCache]⟩
  | succ fuel ih =>
      intro typ c t h
      cases typ
      case typeVariable id =>
        simp only [followBindingsInCache] at h
        cases hb : c.binding id with
        | bound Y =>
            rw [hb] at h
            exact ih Y c t h
        | unbound l k =>
            rw [hb] at h
            injection h with h
            subst h
            refine ⟨?_, ?_⟩
            · intro id2 Y ht
              injection ht with hid
              subst hid
              rw [hb]
              simp
            · intro fuel2
              simp only [followBindingsInCache, hb]
      all_goals
        simp only [followBindingsInCache] at h
        injection h with h
        subst h
        exact ⟨by intro id Y ht; simp at ht,
               by intro fuel2; simp [followBindingsInCache]⟩

/-- Witness for C9 at a concrete input: following `TypeVariable 0` in a
cache binding it (through `TypeVariable 1`) to `Primitive 7` yields
`Primitive 7`, and following that result again returns it unchanged. -/
theorem c9_follow_bindings_witness :
    followBindingsInCache 3 (.primitive 7)
        ⟨[.bound (.typeVariable 1), .bound (.primitive 7)], [], 0, 0⟩
      = some (.primitive 7) :=
  (c9_follow_bindings_returns_unbound_and_is_idempotent 5 (.typeVariable 0)
    ⟨[.bound (.typeVariable 1), .bound (.primitive 7)], [], 0, 0⟩
    (.primitive 7) (by decide)).2 3

/-- Claim C10 (confirmed): `make_tuple_type` asserts at least two element
types (its result is `none` exactly on shorter lists), and both call sites
satisfy the precondition: `infer_closure_environment` always produces a
type (empty and singleton environments are special-cased), and
`resume_environment_type` always produces a type (one continuation type
plus one type per free variable). -/
theorem c10_make_tuple_type_assertion_unreachable_from_callers :
    (∀ ts : List Ty, ts.length ≤ 1 → makeTupleType ts = none)
    ∧ (∀ ts : List Ty, 1 < ts.length → (makeTupleType ts).isSome)
    ∧ (∀ envTypes : List Ty, (inferClosureEnvironment envTypes).isSome)
    ∧ (∀ fvs : List (Nat × Ty), (resumeEnvironmentType fvs).isSome) := by
  have hgo : ∀ (ts : List Ty), ts ≠ [] → (makeTupleGo ts).isSome := by
    intro ts
    induction ts with
    | nil => intro h; exact absurd rfl h
    | cons t rest ih =>
        intro _
        cases rest with
        | nil => simp [makeTupleGo]
        | cons t2 rest2 =>
            have := ih (by simp)
            simp [makeTupleGo]
            rcases Option.isSome_iff_exists.mp this with ⟨v, hv⟩
            rw [hv]
            simp
  have hmk : ∀ ts : List Ty, 1 < ts.length → (makeTupleType ts).isSome := by
    intro ts h
    have : ts ≠ [] := by
      intro he
      subst he
      simp at h
    simp [makeTupleType, Nat.lt_iff_add_one_le.mp h]
    have h2 : ts.length > 1 := h
    simp [h2]
    exact hgo ts this
  refine ⟨?_, hmk, ?_, ?_⟩
  · intro ts h
    have : ¬ (ts.length > 1) := by omega
    simp [makeTupleType, this]
  · intro envTypes
    match envTypes with
    | [] => simp [inferClosureEnvironment]
    | [t] => simp [inferClosureEnvironment]
    | t1 :: t2 :: rest =>
        simp only [inferClosureEnvironment]
        exact hmk _ (by simp)
  · intro fvs
    match fvs with
    | [] => simp [resumeEnvironmentType]
    | f :: rest =>
        simp only [resumeEnvironmentType]
        simp only [List.isEmpty_cons]
        exact hmk _ (by simp)

/-- Witness for C10 at concrete inputs: the assertion fires on the empty
and singleton lists, and both callers produce a type. -/
theorem c10_make_tuple_type_witness :
    makeTupleType ([] : List Ty) = none
    ∧ makeTupleType [Ty.primitive 0] = none
    ∧ (makeTupleType [Ty.primitive 0, Ty.primitive 1]).isSome
    ∧ (inferClosureEnvironment [Ty.primitive 0, Ty.primitive 1]).isSome
    ∧ (resumeEnvironmentType [(5, Ty.primitive 0)]).isSome :=
  ⟨c10_make_tuple_type_assertion_unreachable_from_callers.1 [] (by decide),
   c10_make_tuple_type_assertion_unreachable_from_callers.1 [Ty.primitive 0] (by decide),
   c10_make_tuple_type_assertion_unreachable_from_callers.2.1 _ (by decide),
   c10_make_tuple_type_assertion_unreachable_from_callers.2.2.1 _,
   c10_make_tuple_type_assertion_unreachable_from_callers.2.2.2 _⟩

/-- Lookup in a variable-to-variable map lifted to type bindings. -/
theorem lookup_toTypeBindings (m : List (Nat × Nat)) (id : Nat) :
    (toTypeBindings m).lookup id = (m.lookup id).map (fun v => Ty.typeVariable v) := by
  induction m with
  | nil => rfl
  | cons p rest ih =>
      cases p with
      | mk k v =>
          by_cases h : id = k
          · subst h
            simp [toTypeBindings, List.lookup]
          · simp only [toTypeBindings, List.lookup, List.map_cons,
              beq_false_of_ne h]
            exact ih

/-- A looked-up value is among the map's values. -/
theorem lookup_mem_snd (m : List (Nat × Nat)) (id v : Nat)
    (h : m.lookup id = some v) : v ∈ m.map Prod.snd := by
  induction m with
  | nil => simp [List.lookup] at h
  | cons p rest ih =>
      cases p with
      | mk k w =>
          by_cases hk : id = k
          · subst hk
            simp [List.lookup] at h
            subst h
            simp
          · simp only [List.lookup, beq_false_of_ne hk] at h
            have hmem := ih h
            simp only [List.map_cons, List.mem_cons]
            exact Or.inr hmem

/-- A key of the map has a `some` lookup. -/
theorem lookup_isSome_of_mem_fst (m : List (Nat × Nat)) (id : Nat)
    (h : id ∈ m.map Prod.fst) : (m.lookup id).isSome := by
  induction m with
  | nil => simp at h
  | cons p rest ih =>
      cases p with
      | mk k w =>
          by_cases hk : id = k
          · subst hk
            simp [List.lookup]
          · simp only [List.map_cons, List.mem_cons] at h
            rcases h with h | h
            · exact absurd h hk
            · simp only [List.lookup, beq_false_of_ne hk]
              exact ih h

mutual

/-- Substitution through a map that covers every variable of the type
succeeds with any fuel, and every variable of the result is one of the
map's replacement variables. -/
theorem bindCover : ∀ (T : Ty) (m : List (Nat × Nat)) (c : Cache) (fuel : Nat),
    (∀ id ∈ tyVarIds T, (m.lookup id).isSome) →
    ∃ T2, bindTypevars fuel T (toTypeBindings m) c = some T2
      ∧ ∀ id2 ∈ tyVarIds T2, id2 ∈ m.map Prod.snd
  | .primitive p, m, c, fuel, h => by
      exact ⟨.primitive p, by rw [bindTypevars], by simp [tyVarIds]⟩
  | .tag t, m, c, fuel, h => by
      exact ⟨.tag t, by rw [bindTypevars], by simp [tyVarIds]⟩
  | .userDefined id, m, c, fuel, h => by
      exact ⟨.userDefined id, by rw [bindTypevars], by simp [tyVarIds]⟩
  | .typeVariable id, m, c, fuel, h => by
      have hs := h id (by simp [tyVarIds])
      rcases Option.isSome_iff_exists.mp hs with ⟨v, hv⟩
      refine ⟨.typeVariable v, ?_, ?_⟩
      · rw [bindTypevars]
        show bindTypevar fuel id (toTypeBindings m) c = some (.typeVariable v)
        rw [bindTypevar, lookup_toTypeBindings, hv]
        rfl
      · intro id2 hid2
        simp [tyVarIds] at hid2
        subst hid2
        exact lookup_mem_snd m id id2 hv
  | .namedGeneric id name, m, c, fuel, h => by
      have hs := h id (by simp [tyVarIds])
      rcases Option.isSome_iff_exists.mp hs with ⟨v, hv⟩
      refine ⟨.typeVariable v, ?_, ?_⟩
      · rw [bindTypevars, lookup_toTypeBindings, hv]
        rfl
      · intro id2 hid2
        simp [tyVarIds] at hid2
        subst hid2
        exact lookup_mem_snd m id id2 hv
  | .function params ret env effs va, m, c, fuel, h => by
      rcases bindCoverList params m c fuel
          (fun id hid => h id (by simp [tyVarIds, hid])) with ⟨ps2, hps, hps2⟩
      rcases bindCover ret m c fuel
          (fun id hid => h id (by simp [tyVarIds, hid])) with ⟨r2, hr, hr2⟩
      rcases bindCover env m c fuel
          (fun id hid => h id (by simp [tyVarIds, hid])) with ⟨e2, he, he2⟩
      rcases bindCover effs m c fuel
          (fun id hid => h id (by simp [tyVarIds, hid])) with ⟨fx2, hf, hf2⟩
      refine ⟨.function ps2 r2 e2 fx2 va, ?_, ?_⟩
      · rw [bindTypevars]
        show (do
          let params2 ← bindTypevarsList fuel params (toTypeBindings m) c
          let ret2 ← bindTypevars fuel ret (toTypeBindings m) c
          let env2 ← bindTypevars fuel env (toTypeBindings m) c
          let effs2 ← bindTypevars fuel effs (toTypeBindings m) c
          some (Ty.function params2 ret2 env2 effs2 va)) = _
        rw [hps, hr, he, hf]
        rfl
      · intro id2 hid2
        simp [tyVarIds] at hid2
        rcases hid2 with h1 | h1 | h1 | h1
        · exact hps2 id2 h1
        · exact hr2 id2 h1
        · exact he2 id2 h1
        · exact hf2 id2 h1
  | .typeApplication ctor args, m, c, fuel, h => by
      rcases bindCover ctor m c fuel
          (fun id hid => h id (by simp [tyVarIds, hid])) with ⟨t2, ht, ht2⟩
      rcases bindCoverList args m c fuel
          (fun id hid => h id (by simp [tyVarIds, hid])) with ⟨as2, has, has2⟩
      refine ⟨.typeApplication t2 as2, ?_, ?_⟩
      · rw [bindTypevars]
        show (do
          let t2 ← bindTypevars fuel ctor (toTypeBindings m) c
          let args2 ← bindTypevarsList fuel args (toTypeBindings m) c
          some (Ty.typeApplication t2 args2)) = _
        rw [ht, has]
        rfl
      · intro id2 hid2
        simp [tyVarIds] at hid2
        rcases hid2 with h1 | h1
        · exact ht2 id2 h1
        · exact has2 id2 h1
  | .ref sh mu lt, m, c, fuel, h => by
      rcases bindCover sh m c fuel
          (fun id hid => h id (by simp [tyVarIds, hid])) with ⟨s2, hs, hs2⟩
      rcases bindCover mu m c fuel
          (fun id hid => h id (by simp [tyVarIds, hid])) with ⟨m2, hm, hm2⟩
      rcases bindCover lt m c fuel
          (fun id hid => h id (by simp [tyVarIds, hid])) with ⟨l2, hl, hl2⟩
      refine ⟨.ref s2 m2 l2, ?_, ?_⟩
      · rw [bindTypevars]
        show (do
          let mu2 ← bindTypevars fuel mu (toTypeBindings m) c
          let sh2 ← bindTypevars fuel sh (toTypeBindings m) c
          let lt2 ← bindTypevars fuel lt (toTypeBindings m) c
          some (Ty.ref sh2 mu2 lt2)) = _
        rw [hm, hs, hl]
        rfl
      · intro id2 hid2
        simp [tyVarIds] at hid2
        rcases hid2 with h1 | h1 | h1
        · exact hs2 id2 h1
        · exact hm2 id2 h1
        · exact hl2 id2 h1
  | .struct fields row, m, c, fuel, h => by
      have hs := h row (by simp [tyVarIds])
      rcases Option.isSome_iff_exists.mp hs with ⟨v, hv⟩
      rcases bindCoverFields fields m c fuel
          (fun id hid => h id (by simp [tyVarIds, hid])) with ⟨fs2, hfs, hfs2⟩
      refine ⟨.struct fs2 v, ?_, ?_⟩
      · rw [bindTypevars, lookup_toTypeBindings, hv]
        show (do
          let fields2 ← bindFieldsList fuel fields (toTypeBindings m) c
          some (Ty.struct fields2 v)) = _
        rw [hfs]
        rfl
      · intro id2 hid2
        simp [tyVarIds] at hid2
        rcases hid2 with h1 | h1
        · subst h1
          exact lookup_mem_snd m row id2 hv
        · exact hfs2 id2 h1
  | .effects effs ext, m, c, fuel, h => by
      rcases bindCoverEffs effs m c fuel
          (fun id hid => h id (by simp [tyVarIds, hid])) with ⟨es2, hes, hes2⟩
      cases ext with
      | none =>
          refine ⟨.effects es2 none, ?_, ?_⟩
          · rw [bindTypevars]
            show bindEffects fuel effs none (toTypeBindings m) c = _
            rw [bindEffects, hes]
            rfl
          · intro id2 hid2
            simp [tyVarIds] at hid2
            exact hes2 id2 hid2
      | some x =>
          have hx := h x (by simp [tyVarIds])
          rcases Option.isSome_iff_exists.mp hx with ⟨v, hv⟩
          refine ⟨.effects es2 (some v), ?_, ?_⟩
          · rw [bindTypevars]
            show bindEffects fuel effs (some x) (toTypeBindings m) c = _
            rw [bindEffects, lookup_toTypeBindings, hv]
            show (do
              let es ← bindEffsList fuel effs (toTypeBindings m) c
              some (Ty.effects es (some v))) = _
            rw [hes]
            rfl
          · intro id2 hid2
            simp [tyVarIds] at hid2
            rcases hid2 with h1 | h1
            · exact hes2 id2 h1
            · subst h1
              exact lookup_mem_snd m x id2 hv
termination_by structural T => T

/-- List version of `bindCover`. -/
theorem bindCoverList : ∀ (ts : List Ty) (m : List (Nat × Nat)) (c : Cache) (fuel : Nat),
    (∀ id ∈ tyVarIdsList ts, (m.lookup id).isSome) →
    ∃ ts2, bindTypevarsList fuel ts (toTypeBindings m) c = some ts2
      ∧ ∀ id2 ∈ tyVarIdsList ts2, id2 ∈ m.map Prod.snd
  | [], m, c, fuel, h => by
      exact ⟨[], by rw [bindTypevarsList], by simp [tyVarIdsList]⟩
  | t :: rest, m, c, fuel, h => by
      rcases bindCover t m c fuel
          (fun id hid => h id (by simp [tyVarIdsList, hid])) with ⟨t2, ht, ht2⟩
      rcases bindCoverList rest m c fuel
          (fun id hid => h id (by simp [tyVarIdsList, hid])) with ⟨rest2, hr, hr2⟩
      refine ⟨t2 :: rest2, ?_, ?_⟩
      · rw [bindTypevarsList]
        show (do
          let t2 ← bindTypevars fuel t (toTypeBindings m) c
          let rest2 ← bindTypevarsList fuel rest (toTypeBindings m) c
          some (t2 :: rest2)) = _
        rw [ht, hr]
        rfl
      · intro id2 hid2
        simp [tyVarIdsList] at hid2
        rcases hid2 with h1 | h1
        · exact ht2 id2 h1
        · exact hr2 id2 h1
termination_by structural ts => ts

/-- Field-list version of `bindCover`. -/
theorem bindCoverFields : ∀ (fs : List (String × Ty)) (m : List (Nat × Nat)) (c : Cache) (fuel : Nat),
    (∀ id ∈ tyVarIdsFields fs, (m.lookup id).isSome) →
    ∃ fs2, bindFieldsList fuel fs (toTypeBindings m) c = some fs2
      ∧ ∀ id2 ∈ tyVarIdsFields fs2, id2 ∈ m.map Prod.snd
  | [], m, c, fuel, h => by
      exact ⟨[], by rw [bindFieldsList], by simp [tyVarIdsFields]⟩
  | (k, v) :: rest, m, c, fuel, h => by
      rcases bindCover v m c fuel
          (fun id hid => h id (by simp [tyVarIdsFields, hid])) with ⟨v2, hv, hv2⟩
      rcases bindCoverFields rest m c fuel
          (fun id hid => h id (by simp [tyVarIdsFields, hid])) with ⟨rest2, hr, hr2⟩
      refine ⟨(k, v2) :: rest2, ?_, ?_⟩
      · rw [bindFieldsList]
        show (do
          let v2 ← bindTypevars fuel v (toTypeBindings m) c
          let rest2 ← bindFieldsList fuel rest (toTypeBindings m) c
          some ((k, v2) :: rest2)) = _
        rw [hv, hr]
        rfl
      · intro id2 hid2
        simp [tyVarIdsFields] at hid2
        rcases hid2 with h1 | h1
        · exact hv2 id2 h1
        · exact hr2 id2 h1
termination_by structural fs => fs

/-- Effect-list version of `bindCover`. -/
theorem bindCoverEffs : ∀ (es : List (Nat × List Ty)) (m : List (Nat × Nat)) (c : Cache) (fuel : Nat),
    (∀ id ∈ tyVarIdsEffs es, (m.lookup id).isSome) →
    ∃ es2, bindEffsList fuel es (toTypeBindings m) c = some es2
      ∧ ∀ id2 ∈ tyVarIdsEffs es2, id2 ∈ m.map Prod.snd
  | [], m, c, fuel, h => by
      exact ⟨[], by rw [bindEffsList], by simp [tyVarIdsEffs]⟩
  | (k, args) :: rest, m, c, fuel, h => by
      rcases bindCoverList args m c fuel
          (fun id hid => h id (by simp [tyVarIdsEffs, hid])) with ⟨args2, ha, ha2⟩
      rcases bindCoverEffs rest m c fuel
          (fun id hid => h id (by simp [tyVarIdsEffs, hid])) with ⟨rest2, hr, hr2⟩
      refine ⟨(k, args2) :: rest2, ?_, ?_⟩
      · rw [bindEffsList]
        show (do
          let args2 ← bindTypevarsList fuel args (toTypeBindings m) c
          let rest2 ← bindEffsList fuel rest (toTypeBindings m) c
          some ((k, args2) :: rest2)) = _
        rw [ha, hr]
        rfl
      · intro id2 hid2
        simp [tyVarIdsEffs] at hid2
        rcases hid2 with h1 | h1
        · exact ha2 id2 h1
        · exact hr2 id2 h1
termination_by structural es => es

end

/-- Shape of `mintForVars`: keys are the quantified variables in order,
values are consecutively allocated fresh ids, and the cache grows by one
unbound entry per quantified variable. -/
theorem mintForVars_spec : ∀ (vars : List Nat) (c : Cache),
    (mintForVars vars c).1.map Prod.fst = vars
    ∧ (mintForVars vars c).1.map Prod.snd
        = List.range' c.typeBindings.length vars.length
    ∧ (mintForVars vars c).2.typeBindings.length
        = c.typeBindings.length + vars.length
    ∧ (mintForVars vars c).2.curLevel = c.curLevel := by
  intro vars
  induction vars with
  | nil => intro c; simp [mintForVars, List.range']
  | cons v rest ih =>
      intro c
      have hrec := ih { c with typeBindings := c.typeBindings ++ [.unbound c.curLevel 0] }
      simp [mintForVars, Cache.allocVar] at hrec ⊢
      refine ⟨hrec.1, ?_, by omega, hrec.2.2.2⟩
      rw [hrec.2.1]
      have : List.range' c.typeBindings.length (rest.length + 1)
          = c.typeBindings.length :: List.range' (c.typeBindings.length + 1) rest.length := rfl
      rw [this]

/-- Characterization of `instantiate` on a fully-quantified `PolyType`
with no constraints: it succeeds with any fuel, using exactly the freshly
minted substitution, and every variable of the result is freshly minted. -/
theorem instantiate_poly_no_constraints :
    ∀ (fuel : Nat) (vars : List Nat) (T : Ty) (c : Cache),
      (∀ id ∈ tyVarIds T, id ∈ vars) →
      ∃ T1, instantiate fuel (.polyType vars T) [] c
          = some (.ok T1 [] (toTypeBindings (mintForVars vars c).1)
              (mintForVars vars c).2)
        ∧ ∀ id ∈ tyVarIds T1, id ∈ (mintForVars vars c).1.map Prod.snd := by
  intro fuel vars T c hcover
  have hm := mintForVars_spec vars c
  have hcover2 : ∀ id ∈ tyVarIds T, ((mintForVars vars c).1.lookup id).isSome := by
    intro id hid
    exact lookup_isSome_of_mem_fst _ id (by rw [hm.1]; exact hcover id hid)
  rcases bindCover T (mintForVars vars c).1 (mintForVars vars c).2 fuel hcover2
      with ⟨T1, hb, hids⟩
  refine ⟨T1, ?_, hids⟩
  rw [instantiate]
  rcases hmi : mintForVars vars c with ⟨m, c1⟩
  rw [hmi] at hb
  show (match bindTypevars fuel T (toTypeBindings m) c1 with
        | none => none
        | some t2 =>
            match findAllTypevarsInTraits fuel [] c1 with
            | none => none
            | some FAV.panicked => some IRes.panicked
            | some (FAV.found vars2) =>
                match extendForVars vars2 m c1 with
                | (m2, c2) =>
                    match replaceConstraints fuel [] (toTypeBindings m2) c2 with
                    | none => none
                    | some cons2 => some (IRes.ok t2 cons2 (toTypeBindings m2) c2))
      = some (IRes.ok T1 [] (toTypeBindings m) c1)
  rw [hb]
  rfl

/-- Claim C8's counterexample: `instantiate` freshens only the quantified
variables, so two instantiations of `PolyType([0], TypeApplication(tv 0,
[tv 1]))` both mention the free variable `1`: the claim that the two
results share no inference variables fails. -/
theorem c8_counterexample_instantiate_shares_free_variables :
    instantiate 10 (.polyType [0] (.typeApplication (.typeVariable 0) [.typeVariable 1])) []
        ⟨[.unbound 0 0, .unbound 0 0], [], 0, 0⟩
      = some (.ok (.typeApplication (.typeVariable 2) [.typeVariable 1]) []
          [(0, .typeVariable 2)] ⟨[.unbound 0 0, .unbound 0 0, .unbound 0 0], [], 0, 0⟩)
    ∧ instantiate 10 (.polyType [0] (.typeApplication (.typeVariable 0) [.typeVariable 1])) []
        ⟨[.unbound 0 0, .unbound 0 0, .unbound 0 0], [], 0, 0⟩
      = some (.ok (.typeApplication (.typeVariable 3) [.typeVariable 1]) []
          [(0, .typeVariable 3)]
          ⟨[.unbound 0 0, .unbound 0 0, .unbound 0 0, .unbound 0 0], [], 0, 0⟩)
    ∧ 1 ∈ tyVarIds (.typeApplication (.typeVariable 2) [.typeVariable 1])
    ∧ 1 ∈ tyVarIds (.typeApplication (.typeVariable 3) [.typeVariable 1]) := by
  refine ⟨?_, ?_, by simp [tyVarIds, tyVarIdsList], by simp [tyVarIds, tyVarIdsList]⟩ <;>
    simp [instantiate, mintForVars, Cache.allocVar, toTypeBindings, bindTypevars,
      bindTypevar, bindTypevarsList, List.lookup, findAllTypevarsInTraits,
      extendForVars, replaceConstraints, Cache.binding, List.getD]

/-- Claim C8 (corrected): the freshness guarantee holds only for the
quantified variables.  When every variable mentioned in the type is
quantified and no constraints accompany the instantiation, two successive
`instantiate` calls yield types sharing no inference variables (each call
replaces every quantified variable with a distinct freshly minted one). -/
theorem c8_amended_instantiations_disjoint_when_fully_quantified :
    ∀ (fuel : Nat) (vars : List Nat) (T : Ty) (c : Cache)
      (T1 : Ty) (m1 : List (Nat × Ty)) (c1 : Cache)
      (T2 : Ty) (m2 : List (Nat × Ty)) (c2 : Cache),
      (∀ id ∈ tyVarIds T, id ∈ vars) →
      instantiate fuel (.polyType vars T) [] c = some (.ok T1 [] m1 c1) →
      instantiate fuel (.polyType vars T) [] c1 = some (.ok T2 [] m2 c2) →
      ∀ id ∈ tyVarIds T1, id ∉ tyVarIds T2 := by
  intro fuel vars T c T1 m1 c1 T2 m2 c2 hcover h1 h2 id hid1 hid2
  rcases instantiate_poly_no_constraints fuel vars T c hcover with ⟨T1x, e1, ids1⟩
  rw [h1] at e1
  injection e1 with e1
  cases e1
  rcases instantiate_poly_no_constraints fuel vars T (mintForVars vars c).2 hcover
      with ⟨T2x, e2, ids2⟩
  rw [h2] at e2
  injection e2 with e2
  cases e2
  have hm1 := mintForVars_spec vars c
  have hm2 := mintForVars_spec vars (mintForVars vars c).2
  have r1 := ids1 id hid1
  have r2 := ids2 id hid2
  rw [hm1.2.1] at r1
  rw [hm2.2.1, hm1.2.2.1] at r2
  rw [List.mem_range'_1] at r1 r2
  omega

/-- Witness for C8's amended theorem at a concrete input: instantiating
`PolyType([0, 1], TypeApplication(tv 0, [tv 1]))` twice on the empty cache
yields `TypeApplication(tv 0, [tv 1])` and `TypeApplication(tv 2, [tv 3])`,
and the first result's variable `0` is not among the second's. -/
theorem c8_amended_witness :
    (0 : Nat) ∉ tyVarIds (.typeApplication (.typeVariable 2) [.typeVariable 3]) :=
  c8_amended_instantiations_disjoint_when_fully_quantified 10 [0, 1]
    (.typeApplication (.typeVariable 0) [.typeVariable 1]) ⟨[], [], 0, 0⟩
    (.typeApplication (.typeVariable 0) [.typeVariable 1]) [(0, .typeVariable 0), (1, .typeVariable 1)]
    ⟨[.unbound 0 0, .unbound 0 0], [], 0, 0⟩
    (.typeApplication (.typeVariable 2) [.typeVariable 3]) [(0, .typeVariable 2), (1, .typeVariable 3)]
    ⟨[.unbound 0 0, .unbound 0 0, .unbound 0 0, .unbound 0 0], [], 0, 0⟩
    (by intro id hid; simp [tyVarIds, tyVarIdsList] at hid; rcases hid with h | h <;> simp [h])
    (by simp [instantiate, mintForVars, Cache.allocVar, toTypeBindings, bindTypevars,
      bindTypevar, bindTypevarsList, List.lookup, findAllTypevarsInTraits,
      extendForVars, replaceConstraints])
    (by simp [instantiate, mintForVars, Cache.allocVar, toTypeBindings, bindTypevars,
      bindTypevar, bindTypevarsList, List.lookup, findAllTypevarsInTraits,
      extendForVars, replaceConstraints])
    0 (by simp [tyVarIds, tyVarIdsList])

/-- Spec-side pointwise unification of two parameter lists, written from
claim C3's words: the actual function's i-th parameter is unified against
the expected function's i-th parameter, stopping at the shorter list.  The
fuel discipline matches `unifyList` so the two can be compared. -/
def unifyPointwise : Nat → List Ty → List Ty → UnificationBindings → Cache → Option UR
  | 0, _, _, _, _ => none
  | fuel + 1, xs, ys, b, c =>
      match xs, ys with
      | x :: xs, y :: ys =>
          match tryUnifyInner fuel x y b c with
          | none => none
          | some .panicked => some .panicked
          | some (.err b c) => some (.err b c)
          | some (.ok b c) => unifyPointwise fuel xs ys b c
      | _, _ => some (.ok b c)
termination_by structural f _ _ _ _ => f

/-- Spec-side description of `Function`/`Function` unification, written
from claim C3: fail when the parameter counts differ, unless one function
has varargs and the other has at least as many parameters; otherwise unify
the parameters pointwise, the return types in reversed order (expected's
return on the actual side), then the environments, then the effects. -/
def unifyFunctionsSpec (fuel : Nat) (ps1 : List Ty) (r1 e1 fx1 : Ty)
    (v1 : Bool) (ps2 : List Ty) (r2 e2 fx2 : Ty) (v2 : Bool)
    (b : UnificationBindings) (c : Cache) : Option UR :=
  if ps1.length ≠ ps2.length
      ∧ ¬(v1 = true ∧ ps1.length ≤ ps2.length)
      ∧ ¬(v2 = true ∧ ps2.length ≤ ps1.length) then
    some (.err b c)
  else
    match unifyPointwise fuel ps1 ps2 b c with
    | none => none
    | some .panicked => some .panicked
    | some (.err b c) => some (.err b c)
    | some (.ok b c) =>
        match tryUnifyInner fuel r2 r1 b c with
        | none => none
        | some .panicked => some .panicked
        | some (.err b c) => some (.err b c)
        | some (.ok b c) =>
            match tryUnifyInner fuel e1 e2 b c with
            | none => none
            | some .panicked => some .panicked
            | some (.err b c) => some (.err b c)
            | some (.ok b c) => tryUnifyInner fuel fx1 fx2 b c

/-- The pointwise loop coincides with the source's loop over the zipped
parameter lists. -/
theorem unifyPointwise_eq_unifyList_zip :
    ∀ (fuel : Nat) (xs ys : List Ty) (b : UnificationBindings) (c : Cache),
      unifyPointwise fuel xs ys b c = unifyList fuel (xs.zip ys) b c := by
  intro fuel
  induction fuel with
  | zero => intro xs ys b c; rfl
  | succ fuel ih =>
      intro xs ys b c
      cases xs with
      | nil => rfl
      | cons x xs =>
          cases ys with
          | nil => rfl
          | cons y ys =>
              show (match tryUnifyInner fuel x y b c with
                    | none => none
                    | some UR.panicked => some UR.panicked
                    | some (UR.err b c) => some (UR.err b c)
                    | some (UR.ok b c) => unifyPointwise fuel xs ys b c)
                  = (match tryUnifyInner fuel x y b c with
                    | none => none
                    | some UR.panicked => some UR.panicked
                    | some (UR.err b c) => some (UR.err b c)
                    | some (UR.ok b c) => unifyList fuel (xs.zip ys) b c)
              cases tryUnifyInner fuel x y b c with
              | none => rfl
              | some r =>
                  cases r with
                  | panicked => rfl
                  | err b2 c2 => rfl
                  | ok b2 c2 => exact ih xs ys b2 c2

/-- Claim C3 (confirmed): `Function`/`Function` unification behaves exactly
as described — arity guard with the varargs exception, parameters pointwise,
return types reversed, then environments and effects.  The closed conjuncts
exhibit the behavior: the reversed return order is observable through tag
subsumption (a function returning `Immutable` unifies against one returning
`Mutable`, not vice versa), a varargs function accepts a longer parameter
list, and an arity mismatch without varargs fails. -/
theorem c3_function_unification_matches_spec :
    (∀ (fuel : Nat) (ps1 : List Ty) (r1 e1 fx1 : Ty) (v1 : Bool)
       (ps2 : List Ty) (r2 e2 fx2 : Ty) (v2 : Bool)
       (b : UnificationBindings) (c : Cache),
      tryUnifyInner (fuel + 1) (.function ps1 r1 e1 fx1 v1)
          (.function ps2 r2 e2 fx2 v2) b c
        = unifyFunctionsSpec fuel ps1 r1 e1 fx1 v1 ps2 r2 e2 fx2 v2 b c)
    ∧ tryUnify 10 (.function [] (.tag .immutable) (.primitive 0) (.primitive 0) false)
        (.function [] (.tag .mutable) (.primitive 0) (.primitive 0) false)
        ⟨[], [], 0, 0⟩ = some (.ok ⟨[], []⟩ ⟨[], [], 0, 0⟩)
    ∧ tryUnify 10 (.function [] (.tag .mutable) (.primitive 0) (.primitive 0) false)
        (.function [] (.tag .immutable) (.primitive 0) (.primitive 0) false)
        ⟨[], [], 0, 0⟩ = some (.err ⟨[], [], 0, 0⟩)
    ∧ tryUnify 10 (.function [.primitive 0] (.primitive 9) (.primitive 9) (.primitive 9) true)
        (.function [.primitive 0, .primitive 1] (.primitive 9) (.primitive 9) (.primitive 9) false)
        ⟨[], [], 0, 0⟩ = some (.ok ⟨[], []⟩ ⟨[], [], 0, 0⟩)
    ∧ tryUnify 10 (.function [.primitive 0] (.primitive 9) (.primitive 9) (.primitive 9) false)
        (.function [] (.primitive 9) (.primitive 9) (.primitive 9) false)
        ⟨[], [], 0, 0⟩ = some (.err ⟨[], [], 0, 0⟩) := by
  refine ⟨?_, by decide, by decide, by decide, by decide⟩
  intro fuel ps1 r1 e1 fx1 v1 ps2 r2 e2 fx2 v2 b c
  rw [unifyFunctionsSpec, unifyPointwise_eq_unifyList_zip]
  rfl

/-! ### Cache extension (claim C2)

During unification the cache is never mutated except by appending fresh
unbound variables (`allocVar` inside `new_row_variable` and the fresh
effect-extension variable); all other state is threaded through the staged
`UnificationBindings`.  `CacheExt c c2` says `c2` extends `c`: same type
infos, diagnostics and level, and every pre-existing type-variable binding
unchanged. -/

def CacheExt (c c2 : Cache) : Prop :=
  c2.typeInfos = c.typeInfos ∧ c2.diagnostics = c.diagnostics ∧
  c2.curLevel = c.curLevel ∧
  c.typeBindings.length ≤ c2.typeBindings.length ∧
  ∀ i, i < c.typeBindings.length → c2.typeBindings[i]? = c.typeBindings[i]?

theorem CacheExt.refl (c : Cache) : CacheExt c c :=
  ⟨rfl, rfl, rfl, Nat.le_refl _, fun _ _ => rfl⟩

theorem CacheExt.trans {a b c : Cache} (h1 : CacheExt a b) (h2 : CacheExt b c) :
    CacheExt a c := by
  obtain ⟨i1, d1, l1, n1, g1⟩ := h1
  obtain ⟨i2, d2, l2, n2, g2⟩ := h2
  exact ⟨i2.trans i1, d2.trans d1, l2.trans l1, n1.trans n2,
    fun i hi => (g2 i (Nat.lt_of_lt_of_le hi n1)).trans (g1 i hi)⟩

theorem CacheExt.alloc (c : Cache) (lvl : Nat) : CacheExt c (c.allocVar lvl).2 := by
  refine ⟨rfl, rfl, rfl, ?_, ?_⟩
  · simp [Cache.allocVar]
  · intro i hi
    simp [Cache.allocVar, List.getElem?_append, hi]

theorem newRowVariable_ext {r1 r2 : Nat} {c : Cache} {k : Nat} {c2 : Cache}
    (h : newRowVariable r1 r2 c = some (k, c2)) : CacheExt c c2 := by
  simp only [newRowVariable] at h
  split at h
  · injection h with h
    have h2 := congrArg Prod.snd h
    simp only at h2
    rw [← h2]
    exact CacheExt.alloc c _
  · exact Option.noConfusion h

/-- Cache extension, read off a unification result. -/
def URExt (c : Cache) : UR → Prop
  | .ok _ c2 => CacheExt c c2
  | .err _ c2 => CacheExt c c2
  | .panicked => True

/-- Cache extension, read off a field-merge result. -/
def MRExt (c : Cache) : MR → Prop
  | .ok _ _ c2 => CacheExt c c2
  | .err _ c2 => CacheExt c c2
  | .panicked => True

/-- Cache extension, read off an effect-match result. -/
def MERExt (c : Cache) : MER → Prop
  | .ok _ _ _ c2 => CacheExt c c2
  | .err _ c2 => CacheExt c c2
  | .panicked => True

theorem urExtMono {c c2 : Cache} {r : UR} (h1 : CacheExt c c2)
    (h2 : URExt c2 r) : URExt c r := by
  cases r with
  | ok b c3 => exact h1.trans h2
  | err b c3 => exact h1.trans h2
  | panicked => trivial

theorem mrExtMono {c c2 : Cache} {r : MR} (h1 : CacheExt c c2)
    (h2 : MRExt c2 r) : MRExt c r := by
  cases r with
  | ok f b c3 => exact h1.trans h2
  | err b c3 => exact h1.trans h2
  | panicked => trivial

theorem merExtMono {c c2 : Cache} {r : MER} (h1 : CacheExt c c2)
    (h2 : MERExt c2 r) : MERExt c r := by
  cases r with
  | ok s t b c3 => exact h1.trans h2
  | err b c3 => exact h1.trans h2
  | panicked => trivial

/-! Extension properties of each function of the unification kernel, as
predicates on the fuel value. -/

def InnerExtP (fuel : Nat) : Prop :=
  ∀ a e b c r, tryUnifyInner fuel a e b c = some r → URExt c r

def TvExtP (fuel : Nat) : Prop :=
  ∀ id a t lhs b c r, tryUnifyTypeVariable fuel id a t lhs b c = some r → URExt c r

def ListExtP (fuel : Nat) : Prop :=
  ∀ ps b c r, unifyList fuel ps b c = some r → URExt c r

def BsfExtP (fuel : Nat) : Prop :=
  ∀ f1 f2 r1 r2 b c r, bindStructFields fuel f1 f2 r1 r2 b c = some r → URExt c r

def MergeExtP (fuel : Nat) : Prop :=
  ∀ nf f2 b c r, mergeFields fuel nf f2 b c = some r → MRExt c r

def SubExtP (fuel : Nat) : Prop :=
  ∀ f rest o b c r, structSubset fuel f rest o b c = some r → URExt c r

def BsfsExtP (fuel : Nat) : Prop :=
  ∀ f t b c r, bindStructFieldsSubset fuel f t b c = some r → URExt c r

def SubGoExtP (fuel : Nat) : Prop :=
  ∀ f t b c r, subsetGo fuel f t b c = some r → URExt c r

def EffExtP (fuel : Nat) : Prop :=
  ∀ e1 x1 e2 x2 b c r, unifyEffects fuel e1 x1 e2 x2 b c = some r → URExt c r

def MatchExtP (fuel : Nat) : Prop :=
  ∀ al bl b c r, matchEffects fuel al bl b c = some r → MERExt c r

def ExtsExtP (fuel : Nat) : Prop :=
  ∀ x y b c r, unifyExts fuel x y b c = some r → URExt c r

theorem extsExtSucc (fuel : Nat) (ihInner : InnerExtP fuel) :
    ExtsExtP (fuel + 1) := by
  intro x y b c r h
  simp only [unifyExts] at h
  repeat' split at h
  all_goals first
    | exact Option.noConfusion h
    | (injection h with h; subst h; first | trivial | exact CacheExt.refl _)
    | exact ihInner _ _ _ _ _ h

theorem urExtOk {c : Cache} {b2 : UnificationBindings} {c2 : Cache}
    (h : URExt c (.ok b2 c2)) : CacheExt c c2 := h

theorem urExtErr {c : Cache} {b2 : UnificationBindings} {c2 : Cache}
    (h : URExt c (.err b2 c2)) : CacheExt c c2 := h

theorem mrExtOk {c : Cache} {f : List (String × Ty)} {b2 : UnificationBindings}
    {c2 : Cache} (h : MRExt c (.ok f b2 c2)) : CacheExt c c2 := h

theorem mrExtErr {c : Cache} {b2 : UnificationBindings} {c2 : Cache}
    (h : MRExt c (.err b2 c2)) : CacheExt c c2 := h

theorem merExtOk {c : Cache} {s t : List (Nat × List Ty)}
    {b2 : UnificationBindings} {c2 : Cache}
    (h : MERExt c (.ok s t b2 c2)) : CacheExt c c2 := h

theorem merExtErr {c : Cache} {b2 : UnificationBindings} {c2 : Cache}
    (h : MERExt c (.err b2 c2)) : CacheExt c c2 := h

theorem tvExtSucc (fuel : Nat) (ihInner : InnerExtP fuel) :
    TvExtP (fuel + 1) := by
  intro id a t lhs b c r h
  simp only [tryUnifyTypeVariable] at h
  repeat' split at h
  all_goals first
    | exact Option.noConfusion h
    | (injection h with h; subst h; first | trivial | exact CacheExt.refl _)
    | exact ihInner _ _ _ _ _ h

theorem listExtSucc (fuel : Nat) (ihInner : InnerExtP fuel)
    (ihList : ListExtP fuel) : ListExtP (fuel + 1) := by
  intro ps b c r h
  simp only [unifyList] at h
  repeat' split at h
  all_goals first
    | exact Option.noConfusion h
    | (injection h with h; subst h; first
        | trivial
        | exact CacheExt.refl _
        | exact ihInner _ _ _ _ _ (by assumption))
    | exact urExtMono (urExtOk (ihInner _ _ _ _ _ (by assumption)))
        (ihList _ _ _ _ h)

theorem mergeExtSucc (fuel : Nat) (ihInner : InnerExtP fuel)
    (ihMerge : MergeExtP fuel) : MergeExtP (fuel + 1) := by
  intro nf f2 b c r h
  simp only [mergeFields] at h
  repeat' split at h
  all_goals first
    | exact Option.noConfusion h
    | (injection h with h; subst h; first
        | trivial
        | exact CacheExt.refl _
        | exact ihInner _ _ _ _ _ (by assumption))
    | exact ihMerge _ _ _ _ _ h
    | exact mrExtMono (urExtOk (ihInner _ _ _ _ _ (by assumption)))
        (ihMerge _ _ _ _ _ h)

theorem subGoExtSucc (fuel : Nat) (ihInner : InnerExtP fuel)
    (ihSubGo : SubGoExtP fuel) : SubGoExtP (fuel + 1) := by
  intro f t b c r h
  simp only [subsetGo] at h
  repeat' split at h
  all_goals first
    | exact Option.noConfusion h
    | (injection h with h; subst h; first
        | trivial
        | exact CacheExt.refl _
        | exact ihInner _ _ _ _ _ (by assumption))
    | exact urExtMono (urExtOk (ihInner _ _ _ _ _ (by assumption)))
        (ihSubGo _ _ _ _ _ h)

theorem bsfsExtSucc (fuel : Nat) (ihSubGo : SubGoExtP fuel) :
    BsfsExtP (fuel + 1) := by
  intro f t b c r h
  simp only [bindStructFieldsSubset] at h
  repeat' split at h
  all_goals first
    | exact Option.noConfusion h
    | (injection h with h; subst h; first | trivial | exact CacheExt.refl _)
    | exact ihSubGo _ _ _ _ _ h

theorem subExtSucc (fuel : Nat) (ihBsfs : BsfsExtP fuel) :
    SubExtP (fuel + 1) := by
  intro f rest o b c r h
  simp only [structSubset] at h
  repeat' split at h
  all_goals first
    | exact Option.noConfusion h
    | (injection h with h; subst h; first
        | trivial
        | exact CacheExt.refl _
        | exact ihBsfs _ _ _ _ _ (by assumption)
        | exact urExtMono (urExtOk (ihBsfs _ _ _ _ _ (by assumption)))
            (CacheExt.refl _))

theorem bsfExtSucc (fuel : Nat) (ihMerge : MergeExtP fuel)
    (ihTv : TvExtP fuel) : BsfExtP (fuel + 1) := by
  intro f1 f2 r1 r2 b c r h
  simp only [bindStructFields] at h
  repeat' split at h
  all_goals first
    | exact Option.noConfusion h
    | (injection h with h; subst h; first
        | trivial
        | exact CacheExt.refl _
        | exact ihMerge _ _ _ _ _ (by assumption)
        | exact mrExtOk (ihMerge _ _ _ _ _ (by assumption))
        | exact urExtMono (mrExtOk (ihMerge _ _ _ _ _ (by assumption)))
            (CacheExt.refl _)
        | exact urExtMono (mrExtOk (ihMerge _ _ _ _ _ (by assumption)))
            (ihTv _ _ _ _ _ _ _ (by assumption))
        | exact CacheExt.trans
            (CacheExt.trans (mrExtOk (ihMerge _ _ _ _ _ (by assumption)))
              (urExtOk (ihTv _ _ _ _ _ _ _ (by assumption))))
            (newRowVariable_ext (by assumption)))
    | exact urExtMono (mrExtOk (ihMerge _ _ _ _ _ (by assumption)))
        (ihTv _ _ _ _ _ _ _ h)

theorem matchExtSucc (fuel : Nat) (ihList : ListExtP fuel)
    (ihMatch : MatchExtP fuel) : MatchExtP (fuel + 1) := by
  intro al bl b c r h
  simp only [matchEffects] at h
  repeat' split at h
  all_goals first
    | exact Option.noConfusion h
    | (injection h with h; subst h; first
        | trivial
        | exact CacheExt.refl _
        | exact merExtOk (ihMatch _ _ _ _ _ (by assumption))
        | exact urExtErr (ihList _ _ _ _ (by assumption)))
    | exact ihMatch _ _ _ _ _ h
    | exact merExtMono (urExtOk (ihList _ _ _ _ (by assumption)))
        (ihMatch _ _ _ _ _ h)

theorem effExtSucc (fuel : Nat) (ihMatch : MatchExtP fuel)
    (ihExts : ExtsExtP fuel) : EffExtP (fuel + 1) := by
  intro e1 x1 e2 x2 b c r h
  simp only [unifyEffects] at h
  repeat' split at h
  all_goals first
    | exact Option.noConfusion h
    | (injection h with h; subst h; first
        | trivial
        | exact CacheExt.refl _
        | exact ihMatch _ _ _ _ _ (by assumption)
        | exact merExtErr (ihMatch _ _ _ _ _ (by assumption))
        | exact merExtOk (ihMatch _ _ _ _ _ (by assumption))
        | exact CacheExt.trans (merExtOk (ihMatch _ _ _ _ _ (by assumption)))
            (CacheExt.alloc _ _))
    | exact urExtMono (merExtOk (ihMatch _ _ _ _ _ (by assumption)))
        (ihExts _ _ _ _ _ h)

theorem innerExtSucc (fuel : Nat) (ihInner : InnerExtP fuel)
    (ihTv : TvExtP fuel) (ihList : ListExtP fuel) (ihBsf : BsfExtP fuel)
    (ihSub : SubExtP fuel) (ihEff : EffExtP fuel) : InnerExtP (fuel + 1) := by
  intro a e b c r h
  simp only [tryUnifyInner] at h
  repeat' split at h
  all_goals first
    | exact Option.noConfusion h
    | (injection h with h; subst h; first
        | trivial
        | exact CacheExt.refl _
        | exact ihInner _ _ _ _ _ (by assumption)
        | exact ihList _ _ _ _ (by assumption)
        | exact urExtOk (ihInner _ _ _ _ _ (by assumption))
        | exact urExtOk (ihList _ _ _ _ (by assumption))
        | exact CacheExt.trans (urExtOk (ihList _ _ _ _ (by assumption)))
            (urExtErr (ihInner _ _ _ _ _ (by assumption)))
        | exact CacheExt.trans (urExtOk (ihInner _ _ _ _ _ (by assumption)))
            (urExtErr (ihInner _ _ _ _ _ (by assumption)))
        | exact CacheExt.trans
            (CacheExt.trans (urExtOk (ihList _ _ _ _ (by assumption)))
              (urExtOk (ihInner _ _ _ _ _ (by assumption))))
            (urExtErr (ihInner _ _ _ _ _ (by assumption)))
        | exact CacheExt.trans
            (CacheExt.trans (urExtOk (ihInner _ _ _ _ _ (by assumption)))
              (urExtOk (ihInner _ _ _ _ _ (by assumption))))
            (urExtErr (ihInner _ _ _ _ _ (by assumption))))
    | exact ihTv _ _ _ _ _ _ _ h
    | exact ihInner _ _ _ _ _ h
    | exact ihBsf _ _ _ _ _ _ _ h
    | exact ihSub _ _ _ _ _ _ h
    | exact ihEff _ _ _ _ _ _ _ h
    | exact urExtMono (urExtOk (ihList _ _ _ _ (by assumption)))
        (ihInner _ _ _ _ _ h)
    | exact urExtMono (urExtOk (ihInner _ _ _ _ _ (by assumption)))
        (ihInner _ _ _ _ _ h)
    | exact urExtMono (urExtOk (ihInner _ _ _ _ _ (by assumption)))
        (ihList _ _ _ _ h)
    | exact urExtMono
        (CacheExt.trans (urExtOk (ihList _ _ _ _ (by assumption)))
          (urExtOk (ihInner _ _ _ _ _ (by assumption))))
        (ihInner _ _ _ _ _ h)
    | exact urExtMono
        (CacheExt.trans (urExtOk (ihInner _ _ _ _ _ (by assumption)))
          (urExtOk (ihInner _ _ _ _ _ (by assumption))))
        (ihInner _ _ _ _ _ h)
    | exact urExtMono
        (CacheExt.trans
          (CacheExt.trans (urExtOk (ihList _ _ _ _ (by assumption)))
            (urExtOk (ihInner _ _ _ _ _ (by assumption))))
          (urExtOk (ihInner _ _ _ _ _ (by assumption))))
        (ihInner _ _ _ _ _ h)

/-- Every function of the unification kernel only extends the cache: type
infos, the diagnostics count and the current level are untouched, and every
pre-existing type-variable binding is unchanged (fresh unbound variables may
be appended).  Proved for all fuel values simultaneously by induction. -/
theorem unifyKernelExt : ∀ fuel : Nat,
    InnerExtP fuel ∧ TvExtP fuel ∧ ListExtP fuel ∧ BsfExtP fuel ∧
    MergeExtP fuel ∧ SubExtP fuel ∧ BsfsExtP fuel ∧ SubGoExtP fuel ∧
    EffExtP fuel ∧ MatchExtP fuel ∧ ExtsExtP fuel := by
  intro fuel
  induction fuel with
  | zero =>
      refine ⟨?_, ?_, ?_, ?_, ?_, ?_, ?_, ?_, ?_, ?_, ?_⟩
      · intro a e b c r h; simp only [tryUnifyInner] at h
        exact Option.noConfusion h
      · intro id a t lhs b c r h; simp only [tryUnifyTypeVariable] at h
        exact Option.noConfusion h
      · intro ps b c r h; simp only [unifyList] at h
        exact Option.noConfusion h
      · intro f1 f2 r1 r2 b c r h; simp only [bindStructFields] at h
        exact Option.noConfusion h
      · intro nf f2 b c r h; simp only [mergeFields] at h
        exact Option.noConfusion h
      · intro f rest o b c r h; simp only [structSubset] at h
        exact Option.noConfusion h
      · intro f t b c r h; simp only [bindStructFieldsSubset] at h
        exact Option.noConfusion h
      · intro f t b c r h; simp only [subsetGo] at h
        exact Option.noConfusion h
      · intro e1 x1 e2 x2 b c r h; simp only [unifyEffects] at h
        exact Option.noConfusion h
      · intro al bl b c r h; simp only [matchEffects] at h
        exact Option.noConfusion h
      · intro x y b c r h; simp only [unifyExts] at h
        exact Option.noConfusion h
  | succ fuel ih =>
      obtain ⟨h1, h2, h3, h4, h5, h6, h7, h8, h9, h10, h11⟩ := ih
      exact ⟨innerExtSucc fuel h1 h2 h3 h4 h6 h9, tvExtSucc fuel h1,
        listExtSucc fuel h1 h3, bsfExtSucc fuel h5 h2, mergeExtSucc fuel h1 h5,
        subExtSucc fuel h7, bsfsExtSucc fuel h8, subGoExtSucc fuel h1 h8,
        effExtSucc fuel h10 h11, matchExtSucc fuel h3 h10,
        extsExtSucc fuel h1⟩

theorem tryUnify_ok_ext {fuel : Nat} {a e : Ty} {c : Cache}
    {ub : UnificationBindings} {c1 : Cache}
    (h : tryUnify fuel a e c = some (.ok ub c1)) : CacheExt c c1 := by
  simp only [tryUnify] at h
  repeat' split at h
  all_goals first
    | exact Option.noConfusion h
    | (injection h with h; injection h with h h2; subst h; subst h2;
       exact urExtOk ((unifyKernelExt fuel).1 _ _ _ _ _ (by assumption)))
    | (injection h with h; exact TUR.noConfusion h)

theorem tryUnify_err_ext {fuel : Nat} {a e : Ty} {c : Cache} {c1 : Cache}
    (h : tryUnify fuel a e c = some (.err c1)) : CacheExt c c1 := by
  simp only [tryUnify] at h
  repeat' split at h
  all_goals first
    | exact Option.noConfusion h
    | (injection h with h; injection h with h; subst h;
       exact urExtErr ((unifyKernelExt fuel).1 _ _ _ _ _ (by assumption)))
    | (injection h with h; exact TUR.noConfusion h)

theorem foldlPreservesDiag {α : Type} (f : Cache → α → Cache)
    (hf : ∀ c a, (f c a).diagnostics = c.diagnostics) :
    ∀ (l : List α) (c : Cache), (l.foldl f c).diagnostics = c.diagnostics := by
  intro l
  induction l with
  | nil => intro c; rfl
  | cons x xs ih => intro c; rw [List.foldl_cons, ih, hf]

theorem performTypeBindings_diag (bs : List (Nat × Ty)) (c : Cache) :
    (performTypeBindings bs c).diagnostics = c.diagnostics := by
  rw [performTypeBindings]
  refine foldlPreservesDiag _ ?_ _ c
  exact fun _ _ => rfl

/-- Committing staged bindings (`UnificationBindings::perform`) never
touches the diagnostics count. -/
theorem perform_diagnostics (ub : UnificationBindings) (c : Cache) :
    (ub.perform c).diagnostics = c.diagnostics := by
  refine Eq.trans
    (foldlPreservesDiag _ ?_ ub.levelBindings (performTypeBindings ub.bindings c))
    (performTypeBindings_diag ub.bindings c)
  intro c2 p
  cases hb : c2.binding p.1 <;> simp [hb]

/-- C2: `unify(actual, expected, ..)` either succeeds and commits the whole
staged `UnificationBindings` value to the cache at once (diagnostics
unchanged), or fails and pushes exactly one diagnostic, leaving every
pre-existing type-variable binding in the cache unchanged — all
intermediate unification steps operate only on the staged bindings value
(`unifyKernelExt`), never mutating existing cache bindings. -/
theorem c2_unify_commits_staged_bindings_or_pushes_one_diagnostic :
    ∀ (fuel : Nat) (a e : Ty) (c c2 : Cache),
      unify fuel a e c = some (.done c2) →
      (∃ ub c1, tryUnify fuel a e c = some (TUR.ok ub c1) ∧
          c2 = ub.perform c1 ∧ c2.diagnostics = c.diagnostics) ∨
      (∃ c1, tryUnify fuel a e c = some (TUR.err c1) ∧ c2 = c1.pushDiag ∧
          c2.diagnostics = c.diagnostics + 1 ∧
          ∀ i, i < c.typeBindings.length →
            c2.typeBindings[i]? = c.typeBindings[i]?) := by
  intro fuel a e c c2 h
  simp only [unify] at h
  split at h
  · exact Option.noConfusion h
  · injection h with h
    exact UnifyOut.noConfusion h
  · rename_i ub c1 heq
    injection h with h
    injection h with h
    subst h
    refine Or.inl ⟨ub, c1, heq, rfl, ?_⟩
    rw [perform_diagnostics]
    exact (tryUnify_ok_ext heq).2.1
  · rename_i c1 heq
    injection h with h
    injection h with h
    subst h
    have hce := tryUnify_err_ext heq
    refine Or.inr ⟨c1, heq, rfl, ?_, ?_⟩
    · show c1.diagnostics + 1 = c.diagnostics + 1
      rw [hce.2.1]
    · intro i hi
      exact hce.2.2.2.2 i hi

theorem c2_unify_witness :
    unify 10 (Ty.primitive 0) (Ty.primitive 1) ⟨[], [], 0, 0⟩ =
      some (.done ⟨[], [], 1, 0⟩) ∧
    ((∃ ub c1, tryUnify 10 (Ty.primitive 0) (Ty.primitive 1) ⟨[], [], 0, 0⟩ =
          some (TUR.ok ub c1) ∧
        (⟨[], [], 1, 0⟩ : Cache) = ub.perform c1 ∧
        (⟨[], [], 1, 0⟩ : Cache).diagnostics =
          (⟨[], [], 0, 0⟩ : Cache).diagnostics) ∨
     (∃ c1, tryUnify 10 (Ty.primitive 0) (Ty.primitive 1) ⟨[], [], 0, 0⟩ =
          some (TUR.err c1) ∧
        (⟨[], [], 1, 0⟩ : Cache) = c1.pushDiag ∧
        (⟨[], [], 1, 0⟩ : Cache).diagnostics =
          (⟨[], [], 0, 0⟩ : Cache).diagnostics + 1 ∧
        ∀ i, i < (⟨[], [], 0, 0⟩ : Cache).typeBindings.length →
          (⟨[], [], 1, 0⟩ : Cache).typeBindings[i]? =
            (⟨[], [], 0, 0⟩ : Cache).typeBindings[i]?)) :=
  ⟨by decide,
   c2_unify_commits_staged_bindings_or_pushes_one_diagnostic 10
     (Ty.primitive 0) (Ty.primitive 1) ⟨[], [], 0, 0⟩ ⟨[], [], 1, 0⟩
     (by decide)⟩

/-! ### Self-unification (claim C7) -/

mutual

/-- Structural well-formedness of source types: struct field maps are
`BTreeMap`s in the source, so their key lists never contain duplicates. -/
def selfWf : Ty → Bool
  | .primitive _ => true
  | .tag _ => true
  | .userDefined _ => true
  | .typeVariable _ => true
  | .namedGeneric _ _ => true
  | .function params ret env effs _ =>
      selfWfList params && (selfWf ret && (selfWf env && selfWf effs))
  | .typeApplication ctor args => selfWf ctor && selfWfList args
  | .ref sh mu lt => selfWf sh && (selfWf mu && selfWf lt)
  | .struct fields _ => decide (fields.map Prod.fst).Nodup && selfWfFields fields
  | .effects effs _ => selfWfEffs effs
termination_by typ => sizeOf typ
decreasing_by all_goals simp_wf <;> omega

/-- `selfWf` over a list of types. -/
def selfWfList : List Ty → Bool
  | [] => true
  | t :: rest => selfWf t && selfWfList rest
termination_by ts => sizeOf ts
decreasing_by all_goals simp_wf <;> omega

/-- `selfWf` over a struct field list. -/
def selfWfFields : List (String × Ty) → Bool
  | [] => true
  | (_, t) :: rest => selfWf t && selfWfFields rest
termination_by fs => sizeOf fs
decreasing_by all_goals simp_wf <;> omega

/-- `selfWf` over an effect list. -/
def selfWfEffs : List (Nat × List Ty) → Bool
  | [] => true
  | (_, args) :: rest => selfWfList args && selfWfEffs rest
termination_by es => sizeOf es
decreasing_by all_goals simp_wf <;> omega

end

theorem hasBinding_false_binding {id : Nat} {b : UnificationBindings}
    {c : Cache} (h : hasBinding id b c = false) :
    ∃ lvl k, c.binding id = .unbound lvl k := by
  cases hb : c.binding id with
  | bound t => rw [hasBinding, hb] at h; exact Bool.noConfusion h
  | unbound lvl k => exact ⟨lvl, k, rfl⟩


theorem hasBinding_false_lookup {id : Nat} {b : UnificationBindings}
    {c : Cache} (h : hasBinding id b c = false) :
    b.bindings.lookup id = none := by
  obtain ⟨lvl, k, hb⟩ := hasBinding_false_binding h
  rw [hasBinding, hb] at h
  cases hl : b.bindings.lookup id with
  | none => rfl
  | some t => rw [hl] at h; exact Bool.noConfusion h

theorem hasBinding_false_find {id : Nat} {b : UnificationBindings}
    {c : Cache} (h : hasBinding id b c = false) :
    ∃ lvl k, findBinding id b c = .unbound lvl k := by
  obtain ⟨lvl, k, hb⟩ := hasBinding_false_binding h
  refine ⟨lvl, k, ?_⟩
  rw [findBinding, hb, hasBinding_false_lookup h]

theorem followMap_self_unbound (fuel : Nat) {id : Nat}
    {b : UnificationBindings} {c : Cache} (h : hasBinding id b c = false) :
    followBindingsInCacheAndMap fuel (.typeVariable id) b c =
      some (.typeVariable id) := by
  obtain ⟨lvl, k, hf⟩ := hasBinding_false_find h
  rw [followBindingsInCacheAndMap]
  simp only [hf]

theorem lookup_self_of_nodup :
    ∀ (F : List (String × Ty)), (F.map Prod.fst).Nodup →
      ∀ p ∈ F, F.lookup p.1 = some p.2 := by
  intro F
  induction F with
  | nil => intro _ p hp; cases hp
  | cons q rest ih =>
      obtain ⟨k, v⟩ := q
      intro hnd p hp
      have hnd2 : (k :: rest.map Prod.fst).Nodup := by simpa using hnd
      obtain ⟨hq, hrest⟩ := List.nodup_cons.mp hnd2
      rcases List.mem_cons.mp hp with h1 | h1
      · subst h1; simp [List.lookup]
      · have hne : k ≠ p.1 := by
          intro he
          refine hq ?_
          rw [he]
          exact List.mem_map_of_mem Prod.fst h1
        simp only [List.lookup]
        rw [show (p.1 == k) = false from
          beq_eq_false_iff_ne.mpr (fun he => hne he.symm)]
        exact ih hrest p h1
  
theorem extractFirst_self {e : Nat × List Ty} :
    ∀ B : List (Nat × List Ty), e ∈ B →
      extractFirst (fun x => decide (x = e)) B = some (e, B.erase e) := by
  intro B
  induction B with
  | nil => intro h; cases h
  | cons q rest ih =>
      intro hmem
      by_cases hq : q = e
      · subst hq
        rw [extractFirst]
        simp [List.erase_cons_head]
      · have hmem2 : e ∈ rest := by
          rcases List.mem_cons.mp hmem with h1 | h1
          · exact absurd h1.symm hq
          · exact h1
        rw [extractFirst]
        simp only [decide_eq_false hq, if_false, ih hmem2]
        rw [List.erase_cons_tail] <;> simp [hq]

theorem pickPartner_self {e : Nat × List Ty} {B : List (Nat × List Ty)}
    (h : e ∈ B) : pickPartner e B = some (e, B.erase e) := by
  rw [pickPartner, extractFirst_self B h]

/-! The self-unification property of every kernel function, as predicates on
the fuel value; `selfWf` and unbound (cache and staged) variables are the
side conditions under which unifying a type with itself succeeds, stages no
bindings and leaves the state untouched. -/

def SelfFree (T : Ty) (b : UnificationBindings) (c : Cache) : Prop :=
  ∀ id ∈ tyVarIds T, hasBinding id b c = false

def SelfP1 (fuel : Nat) : Prop :=
  ∀ T b c r, selfWf T = true → SelfFree T b c →
    tryUnifyInner fuel T T b c = some r → r = .ok b c

def SelfP2 (fuel : Nat) : Prop :=
  ∀ ts b c r, selfWfList ts = true →
    (∀ id ∈ tyVarIdsList ts, hasBinding id b c = false) →
    unifyList fuel (ts.zip ts) b c = some r → r = .ok b c

def SelfPTv (fuel : Nat) : Prop :=
  ∀ id b c r, hasBinding id b c = false →
    tryUnifyTypeVariable fuel id (.typeVariable id) (.typeVariable id) true b c =
      some r → r = .ok b c

def SelfPMerge (fuel : Nat) : Prop :=
  ∀ F G b c r, (∀ p ∈ G, F.lookup p.1 = some p.2) →
    (∀ p ∈ G, selfWf p.2 = true) →
    (∀ p ∈ G, ∀ id ∈ tyVarIds p.2, hasBinding id b c = false) →
    mergeFields fuel F G b c = some r → r = .ok F b c

def SelfPBsf (fuel : Nat) : Prop :=
  ∀ f ρ b c r, (f.map Prod.fst).Nodup →
    (∀ p ∈ f, selfWf p.2 = true) →
    (∀ p ∈ f, ∀ id ∈ tyVarIds p.2, hasBinding id b c = false) →
    bindStructFields fuel f f ρ ρ b c = some r → r = .ok b c

def SelfPMatch (fuel : Nat) : Prop :=
  ∀ L B b c r, (∀ x, L.count x ≤ B.count x) →
    (∀ p ∈ L, selfWfList p.2 = true) →
    (∀ p ∈ L, ∀ id ∈ tyVarIdsList p.2, hasBinding id b c = false) →
    matchEffects fuel L B b c = some r →
    ∃ B2, r = .ok [] B2 b c ∧ B2.length + L.length = B.length

def SelfPEff (fuel : Nat) : Prop :=
  ∀ effs ext b c r, (∀ p ∈ effs, selfWfList p.2 = true) →
    (∀ p ∈ effs, ∀ id ∈ tyVarIdsList p.2, hasBinding id b c = false) →
    (∀ x, ext = some x → hasBinding x b c = false) →
    unifyEffects fuel effs ext effs ext b c = some r → r = .ok b c

def SelfPExts (fuel : Nat) : Prop :=
  ∀ ext b c r, unifyExts fuel ext ext b c = some r → r = .ok b c

theorem flattenSelf {fuel : Nat} {effs : List (Nat × List Ty)}
    {ext : Option Nat} {b : UnificationBindings} {c : Cache}
    (hext : ∀ x, ext = some x → hasBinding x b c = false) :
    flattenEffects fuel effs ext b c = some (effs, ext) := by
  cases ext with
  | none => rw [flattenEffects]
  | some x =>
      obtain ⟨lvl, k, hf⟩ := hasBinding_false_find (hext x rfl)
      rw [flattenEffects]
      simp only [hf]

theorem selfWfFields_mem :
    ∀ f : List (String × Ty), selfWfFields f = true →
      ∀ p ∈ f, selfWf p.2 = true := by
  intro f
  induction f with
  | nil => intro _ p hp; cases hp
  | cons q rest ih =>
      obtain ⟨n, t⟩ := q
      intro hwf p hp
      simp only [selfWfFields, Bool.and_eq_true] at hwf
      rcases List.mem_cons.mp hp with h1 | h1
      · subst h1; exact hwf.1
      · exact ih hwf.2 p h1

theorem selfWfEffs_mem :
    ∀ es : List (Nat × List Ty), selfWfEffs es = true →
      ∀ p ∈ es, selfWfList p.2 = true := by
  intro es
  induction es with
  | nil => intro _ p hp; cases hp
  | cons q rest ih =>
      obtain ⟨n, t⟩ := q
      intro hwf p hp
      simp only [selfWfEffs, Bool.and_eq_true] at hwf
      rcases List.mem_cons.mp hp with h1 | h1
      · subst h1; exact hwf.1
      · exact ih hwf.2 p h1

theorem tyVarIdsFields_mem :
    ∀ (f : List (String × Ty)) (p : String × Ty), p ∈ f →
      ∀ id ∈ tyVarIds p.2, id ∈ tyVarIdsFields f := by
  intro f
  induction f with
  | nil => intro p hp; cases hp
  | cons q rest ih =>
      obtain ⟨n, t⟩ := q
      intro p hp id hid
      simp only [tyVarIdsFields]
      rcases List.mem_cons.mp hp with h1 | h1
      · subst h1
        exact List.mem_append_left _ hid
      · exact List.mem_append_right _ (ih p h1 id hid)

theorem tyVarIdsEffs_mem :
    ∀ (es : List (Nat × List Ty)) (p : Nat × List Ty), p ∈ es →
      ∀ id ∈ tyVarIdsList p.2, id ∈ tyVarIdsEffs es := by
  intro es
  induction es with
  | nil => intro p hp; cases hp
  | cons q rest ih =>
      obtain ⟨n, t⟩ := q
      intro p hp id hid
      simp only [tyVarIdsEffs]
      rcases List.mem_cons.mp hp with h1 | h1
      · subst h1
        exact List.mem_append_left _ hid
      · exact List.mem_append_right _ (ih p h1 id hid)

theorem selfExtsSucc (fuel : Nat) : SelfPExts (fuel + 1) := by
  intro ext b c r h
  cases ext with
  | none =>
      simp only [unifyExts] at h
      exact (Option.some.inj h).symm
  | some x =>
      simp [unifyExts] at h
      exact h.symm

theorem selfTvSucc (fuel : Nat) : SelfPTv (fuel + 1) := by
  intro id b c r hfree h
  obtain ⟨lvl, k, hf⟩ := hasBinding_false_find hfree
  simp only [tryUnifyTypeVariable, hf,
    followMap_self_unbound fuel hfree] at h
  simp at h
  exact h.symm

theorem selfListSucc (fuel : Nat) (ih1 : SelfP1 fuel) (ih2 : SelfP2 fuel) :
    SelfP2 (fuel + 1) := by
  intro ts b c r hwf hfree h
  cases ts with
  | nil =>
      simp only [List.zip_nil_left, unifyList] at h
      exact (Option.some.inj h).symm
  | cons t rest =>
      rw [List.zip_cons_cons] at h
      simp only [unifyList] at h
      simp only [selfWfList, Bool.and_eq_true] at hwf
      simp only [tyVarIdsList, List.mem_append] at hfree
      cases he : tryUnifyInner fuel t t b c with
      | none => rw [he] at h; exact Option.noConfusion h
      | some u =>
          have hu : u = .ok b c :=
            ih1 t b c u hwf.1 (fun id hid => hfree id (Or.inl hid)) he
          subst hu
          simp only [he] at h
          exact ih2 rest b c r hwf.2 (fun id hid => hfree id (Or.inr hid)) h

theorem selfMergeSucc (fuel : Nat) (ih1 : SelfP1 fuel)
    (ihm : SelfPMerge fuel) : SelfPMerge (fuel + 1) := by
  intro F G b c r hlk hwf hfree h
  cases G with
  | nil =>
      simp only [mergeFields] at h
      exact (Option.some.inj h).symm
  | cons p rest =>
      obtain ⟨n, t⟩ := p
      have hl : F.lookup n = some t := hlk (n, t) (List.mem_cons_self _ _)
      simp only [mergeFields, hl] at h
      cases he : tryUnifyInner fuel t t b c with
      | none => rw [he] at h; exact Option.noConfusion h
      | some u =>
          have hu : u = .ok b c :=
            ih1 t b c u (hwf (n, t) (List.mem_cons_self _ _))
              (fun id hid => hfree (n, t) (List.mem_cons_self _ _) id hid) he
          subst hu
          simp only [he] at h
          exact ihm F rest b c r
            (fun p hp => hlk p (List.mem_cons_of_mem _ hp))
            (fun p hp => hwf p (List.mem_cons_of_mem _ hp))
            (fun p hp => hfree p (List.mem_cons_of_mem _ hp)) h

theorem selfBsfSucc (fuel : Nat) (ihm : SelfPMerge fuel) :
    SelfPBsf (fuel + 1) := by
  intro f ρ b c r hnd hwf hfree h
  simp only [bindStructFields] at h
  cases hm : mergeFields fuel f f b c with
  | none => rw [hm] at h; exact Option.noConfusion h
  | some m =>
      have hmok : m = .ok f b c :=
        ihm f f b c m (lookup_self_of_nodup f hnd) hwf hfree hm
      subst hmok
      simp only [hm] at h
      simp at h
      exact h.symm

theorem selfMatchSucc (fuel : Nat) (ih2 : SelfP2 fuel)
    (ihmt : SelfPMatch fuel) : SelfPMatch (fuel + 1) := by
  intro L B b c r hcnt hwf hfree h
  cases L with
  | nil =>
      simp only [matchEffects] at h
      exact ⟨B, (Option.some.inj h).symm, by simp⟩
  | cons e rest =>
      have hmem : e ∈ B := by
        have hc := hcnt e
        rw [List.count_cons_self] at hc
        have hpos : 0 < B.count e := by omega
        exact List.count_pos_iff_mem.mp hpos
      simp only [matchEffects, pickPartner_self hmem] at h
      cases he : unifyList fuel (e.2.zip e.2) b c with
      | none => rw [he] at h; exact Option.noConfusion h
      | some u =>
          have hu : u = .ok b c :=
            ih2 e.2 b c u (hwf e (List.mem_cons_self _ _))
              (fun id hid => hfree e (List.mem_cons_self _ _) id hid) he
          subst hu
          simp only [he] at h
          have hcnt2 : ∀ x, rest.count x ≤ (B.erase e).count x := by
            intro x
            by_cases hx : x = e
            · subst hx
              have hc := hcnt x
              rw [List.count_cons_self] at hc
              rw [List.count_erase_self]
              omega
            · have hc := hcnt x
              rw [List.count_cons_of_ne hx] at hc
              rw [List.count_erase_of_ne hx]
              exact hc
          obtain ⟨B2, hr, hlen⟩ := ihmt rest (B.erase e) b c r hcnt2
            (fun p hp => hwf p (List.mem_cons_of_mem _ hp))
            (fun p hp => hfree p (List.mem_cons_of_mem _ hp)) h
          refine ⟨B2, hr, ?_⟩
          rw [List.length_erase_of_mem hmem] at hlen
          have hBpos : 0 < B.length := List.length_pos_of_mem hmem
          simp only [List.length_cons]
          omega

theorem selfEffSucc (fuel : Nat) (ihmt : SelfPMatch fuel)
    (ihx : SelfPExts fuel) : SelfPEff (fuel + 1) := by
  intro effs ext b c r hwf hfree hext h
  simp only [unifyEffects, flattenSelf hext] at h
  cases hm : matchEffects fuel effs effs b c with
  | none => rw [hm] at h; exact Option.noConfusion h
  | some m =>
      obtain ⟨B2, hr, hlen⟩ :=
        ihmt effs effs b c m (fun x => Nat.le_refl _) hwf hfree hm
      subst hr
      have hB2 : B2 = [] := by
        have hl0 : B2.length = 0 := by omega
        exact List.length_eq_zero.mp hl0
      subst hB2
      simp only [hm] at h
      exact ihx ext b c r h

theorem selfInnerSucc (fuel : Nat) (ih1 : SelfP1 fuel) (ih2 : SelfP2 fuel)
    (ihtv : SelfPTv fuel) (ihbsf : SelfPBsf fuel) (iheff : SelfPEff fuel) :
    SelfP1 (fuel + 1) := by
  intro T b c r hwf hfree h
  cases T with
  | primitive p =>
      simp only [tryUnifyInner] at h
      rw [if_pos trivial] at h
      exact (Option.some.inj h).symm
  | tag t =>
      simp only [tryUnifyInner] at h
      rw [if_pos trivial] at h
      exact (Option.some.inj h).symm
  | userDefined id =>
      simp only [tryUnifyInner] at h
      rw [if_pos trivial] at h
      exact (Option.some.inj h).symm
  | typeVariable id =>
      simp only [tryUnifyInner] at h
      exact ihtv id b c r (hfree id (by simp [tyVarIds])) h
  | namedGeneric id name =>
      simp only [tryUnifyInner] at h
      have hfb : hasBinding id b c = false := hfree id (by simp [tyVarIds])
      simp only [hfb] at h
      simp at h
      exact h.symm
  | function ps ret env fx v =>
      simp only [tryUnifyInner] at h
      rw [if_neg (by simp)] at h
      simp only [selfWf, Bool.and_eq_true] at hwf
      simp only [SelfFree, tyVarIds, List.mem_append] at hfree
      cases h1 : unifyList fuel (ps.zip ps) b c with
      | none => rw [h1] at h; exact Option.noConfusion h
      | some u1 =>
          have hu1 : u1 = .ok b c :=
            ih2 ps b c u1 hwf.1
              (fun id hid => hfree id (Or.inl (Or.inl (Or.inl hid)))) h1
          subst hu1
          simp only [h1] at h
          cases h2 : tryUnifyInner fuel ret ret b c with
          | none => rw [h2] at h; exact Option.noConfusion h
          | some u2 =>
              have hu2 : u2 = .ok b c :=
                ih1 ret b c u2 hwf.2.1
                  (fun id hid => hfree id (Or.inl (Or.inl (Or.inr hid)))) h2
              subst hu2
              simp only [h2] at h
              cases h3 : tryUnifyInner fuel env env b c with
              | none => rw [h3] at h; exact Option.noConfusion h
              | some u3 =>
                  have hu3 : u3 = .ok b c :=
                    ih1 env b c u3 hwf.2.2.1
                      (fun id hid => hfree id (Or.inl (Or.inr hid))) h3
                  subst hu3
                  simp only [h3] at h
                  exact ih1 fx b c r hwf.2.2.2
                    (fun id hid => hfree id (Or.inr hid)) h
  | typeApplication ctor args =>
      simp only [tryUnifyInner] at h
      simp only [selfWf, Bool.and_eq_true] at hwf
      simp only [SelfFree, tyVarIds, List.mem_append] at hfree
      cases h1 : tryUnifyInner fuel ctor ctor b c with
      | none => rw [h1] at h; exact Option.noConfusion h
      | some u1 =>
          have hu1 : u1 = .ok b c :=
            ih1 ctor b c u1 hwf.1 (fun id hid => hfree id (Or.inl hid)) h1
          subst hu1
          simp only [h1] at h
          rw [if_neg (by simp)] at h
          exact ih2 args b c r hwf.2 (fun id hid => hfree id (Or.inr hid)) h
  | ref sh mu lt =>
      simp only [tryUnifyInner] at h
      simp only [selfWf, Bool.and_eq_true] at hwf
      simp only [SelfFree, tyVarIds, List.mem_append] at hfree
      cases h1 : tryUnifyInner fuel sh sh b c with
      | none => rw [h1] at h; exact Option.noConfusion h
      | some u1 =>
          have hu1 : u1 = .ok b c :=
            ih1 sh b c u1 hwf.1
              (fun id hid => hfree id (Or.inl (Or.inl hid))) h1
          subst hu1
          simp only [h1] at h
          cases h2 : tryUnifyInner fuel mu mu b c with
          | none => rw [h2] at h; exact Option.noConfusion h
          | some u2 =>
              have hu2 : u2 = .ok b c :=
                ih1 mu b c u2 hwf.2.1
                  (fun id hid => hfree id (Or.inl (Or.inr hid))) h2
              subst hu2
              simp only [h2] at h
              exact ih1 lt b c r hwf.2.2
                (fun id hid => hfree id (Or.inr hid)) h
  | struct fields row =>
      have hrow : hasBinding row b c = false := hfree row (by simp [tyVarIds])
      obtain ⟨lvl, k, hb⟩ := hasBinding_false_binding hrow
      simp only [tryUnifyInner, hb] at h
      simp only [selfWf, Bool.and_eq_true, decide_eq_true_eq] at hwf
      exact ihbsf fields row b c r hwf.1 (selfWfFields_mem fields hwf.2)
        (fun p hp id hid => hfree id (by
          simp only [tyVarIds, List.mem_cons]
          exact Or.inr (tyVarIdsFields_mem fields p hp id hid))) h
  | effects effs ext =>
      simp only [tryUnifyInner] at h
      simp only [selfWf] at hwf
      exact iheff effs ext b c r (selfWfEffs_mem effs hwf)
        (fun p hp id hid => hfree id (by
          simp only [tyVarIds, List.mem_append]
          exact Or.inl (tyVarIdsEffs_mem effs p hp id hid)))
        (fun x hx => hfree x (by subst hx; simp [tyVarIds])) h

/-- Unifying a well-formed type with itself, when every variable it mentions
is unbound, succeeds, stages no bindings, and leaves the state untouched —
for every function of the kernel, by induction on fuel. -/
theorem selfUnifyAll : ∀ fuel : Nat,
    SelfP1 fuel ∧ SelfP2 fuel ∧ SelfPTv fuel ∧ SelfPMerge fuel ∧
    SelfPBsf fuel ∧ SelfPMatch fuel ∧ SelfPEff fuel ∧ SelfPExts fuel := by
  intro fuel
  induction fuel with
  | zero =>
      refine ⟨?_, ?_, ?_, ?_, ?_, ?_, ?_, ?_⟩
      · intro T b c r _ _ h; simp only [tryUnifyInner] at h
        exact Option.noConfusion h
      · intro ts b c r _ _ h; simp only [unifyList] at h
        exact Option.noConfusion h
      · intro id b c r _ h; simp only [tryUnifyTypeVariable] at h
        exact Option.noConfusion h
      · intro F G b c r _ _ _ h; simp only [mergeFields] at h
        exact Option.noConfusion h
      · intro f ρ b c r _ _ _ h; simp only [bindStructFields] at h
        exact Option.noConfusion h
      · intro L B b c r _ _ _ h; simp only [matchEffects] at h
        exact Option.noConfusion h
      · intro effs ext b c r _ _ _ h; simp only [unifyEffects] at h
        exact Option.noConfusion h
      · intro ext b c r h; simp only [unifyExts] at h
        exact Option.noConfusion h
  | succ fuel ih =>
      obtain ⟨p1, p2, ptv, pm, pb, pmt, pe, px⟩ := ih
      exact ⟨selfInnerSucc fuel p1 p2 ptv pb pe, selfListSucc fuel p1 p2,
        selfTvSucc fuel, selfMergeSucc fuel p1 pm, selfBsfSucc fuel pm,
        selfMatchSucc fuel p2 pmt, selfEffSucc fuel pmt px,
        selfExtsSucc fuel⟩

/-- C7 counterexample: the claim quantifies over every type, but a type can
mention a row variable that the cache has already bound; following it can
produce an occurs failure, so unifying such a type with itself from an
empty binding set fails and `unify` pushes a diagnostic. -/
theorem c7_counterexample_self_unification_can_fail :
    tryUnify 20 (Ty.struct [("x", Ty.primitive 2)] 0)
        (Ty.struct [("x", Ty.primitive 2)] 0)
        ⟨[.bound (.typeVariable 1), .unbound 0 0], [], 0, 0⟩ =
      some (.err ⟨[.bound (.typeVariable 1), .unbound 0 0], [], 0, 0⟩) ∧
    unify 20 (Ty.struct [("x", Ty.primitive 2)] 0)
        (Ty.struct [("x", Ty.primitive 2)] 0)
        ⟨[.bound (.typeVariable 1), .unbound 0 0], [], 0, 0⟩ =
      some (.done ⟨[.bound (.typeVariable 1), .unbound 0 0], [], 1, 0⟩) :=
  ⟨by decide, by decide⟩

/-- C7 (amended): for a well-formed type `T` (struct field maps have no
duplicate keys, as source `BTreeMap`s guarantee) every one of whose
mentioned variables — including struct row variables and effect extension
variables — is unbound in the cache, `try_unify(T, T)` succeeds with an
empty set of staged bindings and an unchanged cache.  The spec's unqualified
"for every type" version is refuted by
`c7_counterexample_self_unification_can_fail`. -/
theorem c7_amended_self_unification_of_unbound_types_stages_nothing :
    ∀ (fuel : Nat) (T : Ty) (c : Cache) (r : TUR),
      selfWf T = true →
      (∀ id ∈ tyVarIds T, ∃ lvl k, c.binding id = .unbound lvl k) →
      tryUnify fuel T T c = some r →
      r = .ok UnificationBindings.empty c := by
  intro fuel T c r hwf hfree h
  have hfree2 : SelfFree T UnificationBindings.empty c := by
    intro id hid
    obtain ⟨lvl, k, hb⟩ := hfree id hid
    rw [hasBinding, hb]
    rfl
  simp only [tryUnify] at h
  cases hi : tryUnifyInner fuel T T UnificationBindings.empty c with
  | none => rw [hi] at h; exact Option.noConfusion h
  | some u =>
      have hu : u = .ok UnificationBindings.empty c :=
        (selfUnifyAll fuel).1 T UnificationBindings.empty c u hwf hfree2 hi
      subst hu
      simp only [hi] at h
      exact (Option.some.inj h).symm

theorem c7_amended_witness :
    (selfWf (Ty.struct [("x", Ty.primitive 2)] 0) = true ∧
     (∀ id ∈ tyVarIds (Ty.struct [("x", Ty.primitive 2)] 0),
        ∃ lvl k, (⟨[.unbound 0 0], [], 0, 0⟩ : Cache).binding id =
          .unbound lvl k) ∧
     tryUnify 10 (Ty.struct [("x", Ty.primitive 2)] 0)
         (Ty.struct [("x", Ty.primitive 2)] 0) ⟨[.unbound 0 0], [], 0, 0⟩ =
       some (.ok ⟨[], []⟩ ⟨[.unbound 0 0], [], 0, 0⟩)) ∧
    (TUR.ok ⟨[], []⟩ ⟨[.unbound 0 0], [], 0, 0⟩ =
      .ok UnificationBindings.empty ⟨[.unbound 0 0], [], 0, 0⟩) :=
  ⟨⟨by simp [selfWf, selfWfFields, List.nodup_cons],
    by
      intro id hid
      simp [tyVarIds, tyVarIdsFields] at hid
      subst hid
      exact ⟨0, 0, rfl⟩,
    by decide⟩,
   c7_amended_self_unification_of_unbound_types_stages_nothing 10
     (Ty.struct [("x", Ty.primitive 2)] 0) ⟨[.unbound 0 0], [], 0, 0⟩
     (.ok ⟨[], []⟩ ⟨[.unbound 0 0], [], 0, 0⟩)
     (by simp [selfWf, selfWfFields, List.nodup_cons])
     (by
       intro id hid
       simp [tyVarIds, tyVarIdsFields] at hid
       subst hid
       exact ⟨0, 0, rfl⟩)
     (by decide)⟩

/-! ### Struct row merging (claim C6) -/

/-- The field map produced by `bind_struct_fields`' merging loop when every
field of the second map is inserted (no shared names): successive
`insertField`s of the second map's entries into the first. -/
def mergeInto (nf : List (String × Ty)) : List (String × Ty) → List (String × Ty)
  | [] => nf
  | (n, t) :: rest => mergeInto (insertField n t nf) rest

theorem string_compare_eq {a b : String} (h : compare a b = .eq) : a = b := by
  simp only [compare, compareOfLessAndEq] at h
  split at h
  · exact Ordering.noConfusion h
  · split at h
    · assumption
    · exact Ordering.noConfusion h

theorem insertField_lookup_ne :
    ∀ (acc : List (String × Ty)) (n : String) (t : Ty) (m : String), m ≠ n →
      (insertField n t acc).lookup m = acc.lookup m := by
  intro acc
  induction acc with
  | nil =>
      intro n t m hm
      simp only [insertField, List.lookup]
      rw [show (m == n) = false from beq_eq_false_iff_ne.mpr hm]
  | cons q rest ih =>
      obtain ⟨k, v⟩ := q
      intro n t m hm
      simp only [insertField]
      cases hc : compare n k with
      | lt =>
          simp only [List.lookup]
          rw [show (m == n) = false from beq_eq_false_iff_ne.mpr hm]
      | eq =>
          have hk : n = k := string_compare_eq hc
          subst hk
          simp only [List.lookup]
          rw [show (m == n) = false from beq_eq_false_iff_ne.mpr hm]
      | gt =>
          simp only [List.lookup]
          cases hkm : m == k with
          | true => rfl
          | false => exact ih n t m hm

theorem insertField_length_absent :
    ∀ (acc : List (String × Ty)) (n : String) (t : Ty),
      acc.lookup n = none → (insertField n t acc).length = acc.length + 1 := by
  intro acc
  induction acc with
  | nil => intro n t _; rfl
  | cons q rest ih =>
      obtain ⟨k, v⟩ := q
      intro n t hl
      simp only [List.lookup] at hl
      cases hkn : n == k with
      | true => rw [hkn] at hl; exact Option.noConfusion hl
      | false =>
          rw [hkn] at hl
          simp only [insertField]
          cases hc : compare n k with
          | lt => rfl
          | eq =>
              have hk : n = k := string_compare_eq hc
              subst hk
              simp at hkn
          | gt =>
              simp only [List.length_cons, ih n t hl]

theorem mergeInto_length :
    ∀ (G F : List (String × Ty)), (∀ p ∈ G, F.lookup p.1 = none) →
      (G.map Prod.fst).Nodup → (mergeInto F G).length = F.length + G.length := by
  intro G
  induction G with
  | nil => intro F _ _; rfl
  | cons q rest ih =>
      obtain ⟨n, t⟩ := q
      intro F hdisj hnd
      have hnd2 : (n :: rest.map Prod.fst).Nodup := by simpa using hnd
      obtain ⟨hq, hrest⟩ := List.nodup_cons.mp hnd2
      simp only [mergeInto]
      rw [ih (insertField n t F) ?_ hrest]
      · rw [insertField_length_absent F n t (hdisj (n, t) (List.mem_cons_self _ _))]
        simp only [List.length_cons]
        omega
      · intro p hp
        have hpn : p.1 ≠ n := by
          intro he
          exact hq (he ▸ List.mem_map_of_mem Prod.fst hp)
        rw [insertField_lookup_ne F n t p.1 hpn]
        exact hdisj p (List.mem_cons_of_mem _ hp)

theorem mergeFields_disjoint :
    ∀ (G : List (String × Ty)) (fuel : Nat) (F : List (String × Ty))
      (b : UnificationBindings) (c : Cache),
      G.length < fuel → (∀ p ∈ G, F.lookup p.1 = none) →
      (G.map Prod.fst).Nodup →
      mergeFields fuel F G b c = some (.ok (mergeInto F G) b c) := by
  intro G
  induction G with
  | nil =>
      intro fuel F b c hf _ _
      cases fuel with
      | zero => omega
      | succ f => simp only [mergeFields, mergeInto]
  | cons q rest ih =>
      obtain ⟨n, t⟩ := q
      intro fuel F b c hf hdisj hnd
      have hnd2 : (n :: rest.map Prod.fst).Nodup := by simpa using hnd
      obtain ⟨hq, hrest⟩ := List.nodup_cons.mp hnd2
      cases fuel with
      | zero => omega
      | succ f =>
          simp only [mergeFields, mergeInto,
            hdisj (n, t) (List.mem_cons_self _ _)]
          refine ih f (insertField n t F) b c ?_ ?_ hrest
          · simp only [List.length_cons] at hf
            omega
          · intro p hp
            have hpn : p.1 ≠ n := by
              intro he
              exact hq (he ▸ List.mem_map_of_mem Prod.fst hp)
            rw [insertField_lookup_ne F n t p.1 hpn]
            exact hdisj p (List.mem_cons_of_mem _ hp)

theorem findBinding_unbound_cache {id : Nat} {b : UnificationBindings}
    {c : Cache} {l k : Nat} (h : findBinding id b c = .unbound l k) :
    c.binding id = .unbound l k := by
  rw [findBinding] at h
  cases hb : c.binding id with
  | bound t => rw [hb] at h; exact TypeBinding.noConfusion h
  | unbound l2 k2 =>
      rw [hb] at h
      cases hl : b.bindings.lookup id with
      | some t => rw [hl] at h; exact TypeBinding.noConfusion h
      | none =>
          rw [hl] at h
          injection h with h1 h2
          rw [h1, h2]

theorem findBinding_empty (id : Nat) (c : Cache) :
    findBinding id UnificationBindings.empty c = c.binding id := by
  rw [findBinding]
  cases hb : c.binding id with
  | bound t => rfl
  | unbound l k => rfl

theorem followMap_unbound_find (fuel : Nat) {v : Nat}
    {b : UnificationBindings} {c : Cache} {l k : Nat}
    (h : findBinding v b c = .unbound l k) :
    followBindingsInCacheAndMap fuel (.typeVariable v) b c =
      some (.typeVariable v) := by
  rw [followBindingsInCacheAndMap]
  simp only [h]

theorem typevarsMatch_unbound (fuel : Nat) (n lv : Nat) {v : Nat}
    {b : UnificationBindings} {c : Cache} {l2 k2 : Nat}
    (h : findBinding v b c = .unbound l2 k2) :
    typevarsMatch n lv v b fuel c =
      .res ⟨n == v, if lv < l2 then [(n, lv)] else []⟩ := by
  cases fuel with
  | zero => simp only [typevarsMatch, h]
  | succ f => simp only [typevarsMatch, h]

theorem occursHelper_tv (fuel n lv v : Nat) (b : UnificationBindings)
    (c : Cache) :
    occursHelper n lv (.typeVariable v) b (fuel + 1) c =
      typevarsMatch n lv v b fuel c := by
  simp only [occursHelper]

theorem tvUnifyDistinct (fuel : Nat) {r1 r2 : Nat} {b : UnificationBindings}
    {c : Cache} {l1 k1 l2 k2 : Nat} (hne : r1 ≠ r2)
    (hub1 : findBinding r1 b c = .unbound l1 k1)
    (hub2 : findBinding r2 b c = .unbound l2 k2) :
    tryUnifyTypeVariable (fuel + 1) r1 (.typeVariable r1) (.typeVariable r2)
        true b c =
      some (.ok (b.insert r1 (.typeVariable r2)) c) := by
  simp only [tryUnifyTypeVariable, hub1, followMap_unbound_find fuel hub2]
  rw [if_pos (show Ty.typeVariable r1 ≠ Ty.typeVariable r2 from
    fun he => hne (by injection he))]
  rw [show RECURSION_LIMIT = 99 + 1 from rfl, occursHelper_tv,
    typevarsMatch_unbound 99 r1 l1 hub2]
  simp [beq_eq_false_iff_ne.mpr hne]

/-- `bind_struct_fields` on disjoint nonempty field maps with distinct
unbound rows: the fields merge without any unification, row `r1` is staged
to `TypeVariable r2`, a fresh row at the minimum of the two levels is
minted, and `r2` is staged to the merged struct carrying it. -/
theorem bsfDisjoint :
    ∀ (fuel : Nat) (F1 F2 : List (String × Ty)) (r1 r2 : Nat)
      (b : UnificationBindings) (c : Cache) (l1 k1 l2 k2 : Nat),
      (∀ p ∈ F2, F1.lookup p.1 = none) → (F2.map Prod.fst).Nodup →
      F1 ≠ [] → F2 ≠ [] → r1 ≠ r2 →
      findBinding r1 b c = .unbound l1 k1 →
      findBinding r2 b c = .unbound l2 k2 →
      F2.length + 2 ≤ fuel →
      bindStructFields fuel F1 F2 r1 r2 b c =
        some (.ok ((b.insert r1 (.typeVariable r2)).insert r2
            (.struct (mergeInto F1 F2) c.typeBindings.length))
          { c with typeBindings :=
              c.typeBindings ++ [.unbound (min l1 l2) 0] }) := by
  intro fuel F1 F2 r1 r2 b c l1 k1 l2 k2 hdisj hnd hne1 hne2 hr hub1 hub2 hf
  have hpos1 : 0 < F1.length := List.length_pos.mpr hne1
  have hpos2 : 0 < F2.length := List.length_pos.mpr hne2
  have hlen := mergeInto_length F2 F1 hdisj hnd
  cases fuel with
  | zero => omega
  | succ f =>
      cases f with
      | zero => omega
      | succ f2 =>
          simp only [bindStructFields,
            mergeFields_disjoint F2 (f2 + 1) F1 b c (by omega) hdisj hnd]
          rw [if_pos ⟨by rw [hlen]; omega, by rw [hlen]; omega⟩]
          rw [tvUnifyDistinct f2 hr hub1 hub2]
          simp only [newRowVariable, findBinding_unbound_cache hub1,
            findBinding_unbound_cache hub2, Cache.allocVar]

theorem getD_set_self {α : Type} :
    ∀ (l : List α) (i : Nat) (v d : α), i < l.length →
      (l.set i v).getD i d = v := by
  intro l
  induction l with
  | nil => intro i v d h; simp at h
  | cons x xs ih =>
      intro i v d h
      cases i with
      | zero => rfl
      | succ j =>
          simp only [List.set_cons_succ, List.getD_cons_succ]
          exact ih j v d (by simp at h; omega)

theorem getD_set_ne {α : Type} :
    ∀ (l : List α) (i j : Nat) (v d : α), i ≠ j →
      (l.set i v).getD j d = l.getD j d := by
  intro l
  induction l with
  | nil => intro i j v d h; rfl
  | cons x xs ih =>
      intro i j v d h
      cases i with
      | zero =>
          cases j with
          | zero => exact absurd rfl h
          | succ j2 => rfl
      | succ i2 =>
          cases j with
          | zero => rfl
          | succ j2 =>
              simp only [List.set_cons_succ, List.getD_cons_succ]
              exact ih i2 j2 v d (fun he => h (by rw [he]))

theorem getD_append_self {α : Type} :
    ∀ (l : List α) (v d : α), (l ++ [v]).getD l.length d = v := by
  intro l
  induction l with
  | nil => intro v d; rfl
  | cons x xs ih => intro v d; exact ih v d

/-- C6 counterexample: the claim's precondition (each side has residual
fields) also admits struct pairs with a *shared* field; if that shared
field's unification stages a binding for `ρ₂` (here field `f` of the
actual side has type `TypeVariable ρ₂` and unifies with `int 5`), the
later `ρ₁`-vs-`ρ₂` row unification follows that staged binding, so after
the commit `ρ₁` is bound to `int 5` — neither to the merged struct nor to
`ρ₂` — refuting "both ρ₁ and ρ₂ are bound (directly or through one
another) to the merged struct". -/
theorem c6_counterexample_shared_field_breaks_row_binding :
    unify 30 (Ty.struct [("f", .typeVariable 1), ("p", .primitive 0)] 0)
        (Ty.struct [("f", .primitive 5), ("q", .primitive 0)] 1)
        ⟨[.unbound 0 0, .unbound 0 0], [], 0, 0⟩ =
      some (.done ⟨[.bound (.primitive 5),
        .bound (.struct [("f", .typeVariable 1), ("p", .primitive 0),
          ("q", .primitive 0)] 2),
        .unbound 0 0], [], 0, 0⟩) ∧
    Ty.primitive 5 ≠ .struct [("f", .typeVariable 1), ("p", .primitive 0),
      ("q", .primitive 0)] 2 ∧
    Ty.primitive 5 ≠ .typeVariable 1 :=
  ⟨by decide, by decide, by decide⟩

/-- Claim C6 (corrected): for struct types with *disjoint* nonempty field
maps (so each side's fields are residual for the other, and no shared-field
unification can interfere, cf.
`c6_counterexample_shared_field_breaks_row_binding`) and distinct unbound
in-range row variables, unification mints a fresh row variable at the
minimum of the two rows' levels and commits `ρ₁ ↦ TypeVariable ρ₂` and
`ρ₂ ↦ Struct(merged fields, fresh row)`: both rows end up bound — `ρ₂`
directly, `ρ₁` through `ρ₂` — to the merged struct, whose row is distinct
from both, with no diagnostic pushed. -/
theorem c6_amended_disjoint_struct_merge_binds_rows_through_fresh_min_level_row :
    ∀ (fuel : Nat) (F1 F2 : List (String × Ty)) (r1 r2 : Nat) (c : Cache)
      (l1 k1 l2 k2 : Nat),
      (∀ p ∈ F2, F1.lookup p.1 = none) →
      (F2.map Prod.fst).Nodup →
      F1 ≠ [] → F2 ≠ [] → r1 ≠ r2 →
      c.binding r1 = .unbound l1 k1 → c.binding r2 = .unbound l2 k2 →
      r1 < c.typeBindings.length → r2 < c.typeBindings.length →
      F2.length + 3 ≤ fuel →
      ∃ cf, unify fuel (.struct F1 r1) (.struct F2 r2) c = some (.done cf) ∧
        cf.binding r1 = .bound (.typeVariable r2) ∧
        cf.binding r2 =
          .bound (.struct (mergeInto F1 F2) c.typeBindings.length) ∧
        cf.binding c.typeBindings.length = .unbound (min l1 l2) 0 ∧
        r1 ≠ c.typeBindings.length ∧ r2 ≠ c.typeBindings.length ∧
        cf.diagnostics = c.diagnostics ∧
        (mergeInto F1 F2).length ≠ F1.length ∧
        (mergeInto F1 F2).length ≠ F2.length := by
  intro fuel F1 F2 r1 r2 c l1 k1 l2 k2 hdisj hnd hne1 hne2 hr hcb1 hcb2
    hlt1 hlt2 hf
  cases fuel with
  | zero => omega
  | succ f =>
      have hub1 : findBinding r1 UnificationBindings.empty c =
          .unbound l1 k1 := by rw [findBinding_empty]; exact hcb1
      have hub2 : findBinding r2 UnificationBindings.empty c =
          .unbound l2 k2 := by rw [findBinding_empty]; exact hcb2
      have hbsf := bsfDisjoint f F1 F2 r1 r2 UnificationBindings.empty c
        l1 k1 l2 k2 hdisj hnd hne1 hne2 hr hub1 hub2 (by omega)
      have hinner : tryUnifyInner (f + 1) (.struct F1 r1) (.struct F2 r2)
          UnificationBindings.empty c =
          some (.ok ((UnificationBindings.empty.insert r1
              (.typeVariable r2)).insert r2
              (.struct (mergeInto F1 F2) c.typeBindings.length))
            { c with typeBindings :=
                c.typeBindings ++ [.unbound (min l1 l2) 0] }) := by
        simp only [tryUnifyInner, hcb1, hcb2]
        exact hbsf
      have htu : tryUnify (f + 1) (.struct F1 r1) (.struct F2 r2) c =
          some (.ok ((UnificationBindings.empty.insert r1
              (.typeVariable r2)).insert r2
              (.struct (mergeInto F1 F2) c.typeBindings.length))
            { c with typeBindings :=
                c.typeBindings ++ [.unbound (min l1 l2) 0] }) := by
        simp only [tryUnify, hinner]
      have huni : unify (f + 1) (.struct F1 r1) (.struct F2 r2) c =
          some (.done (((UnificationBindings.empty.insert r1
              (.typeVariable r2)).insert r2
              (.struct (mergeInto F1 F2) c.typeBindings.length)).perform
            { c with typeBindings :=
                c.typeBindings ++ [.unbound (min l1 l2) 0] })) := by
        simp only [unify, htu]
      have htb : (((UnificationBindings.empty.insert r1
              (.typeVariable r2)).insert r2
              (.struct (mergeInto F1 F2) c.typeBindings.length)).perform
            { c with typeBindings :=
                c.typeBindings ++ [.unbound (min l1 l2) 0] }).typeBindings =
          ((c.typeBindings ++ [TypeBinding.unbound (min l1 l2) 0]).set r1
              (TypeBinding.bound (.typeVariable r2))).set r2
            (TypeBinding.bound
              (.struct (mergeInto F1 F2) c.typeBindings.length)) := by
        simp [UnificationBindings.perform, performTypeBindings,
          UnificationBindings.insert, UnificationBindings.empty,
          Cache.bindVar]
      refine ⟨_, huni, ?_, ?_, ?_, by omega, by omega, ?_, ?_, ?_⟩
      · rw [Cache.binding, htb,
          getD_set_ne _ r2 r1 _ _ (fun he => hr he.symm)]
        refine getD_set_self _ r1 _ _ ?_
        simp only [List.length_append, List.length_cons, List.length_nil]
        omega
      · rw [Cache.binding, htb]
        refine getD_set_self _ r2 _ _ ?_
        simp only [List.length_set, List.length_append, List.length_cons,
          List.length_nil]
        omega
      · rw [Cache.binding, htb,
          getD_set_ne _ r2 c.typeBindings.length _ _ (by omega),
          getD_set_ne _ r1 c.typeBindings.length _ _ (by omega)]
        exact getD_append_self c.typeBindings _ _
      · rw [perform_diagnostics]
      · rw [mergeInto_length F2 F1 hdisj hnd]
        have := List.length_pos.mpr hne2
        omega
      · rw [mergeInto_length F2 F1 hdisj hnd]
        have := List.length_pos.mpr hne1
        omega

theorem c6_amended_witness :
    ((∀ p ∈ [("y", Ty.primitive 3)],
        List.lookup p.1 [("x", Ty.primitive 2)] = none) ∧
     ([("y", Ty.primitive 3)].map Prod.fst).Nodup ∧
     [("x", Ty.primitive 2)] ≠ ([] : List (String × Ty)) ∧
     [("y", Ty.primitive 3)] ≠ ([] : List (String × Ty)) ∧
     (0 : Nat) ≠ 1 ∧
     (⟨[.unbound 4 0, .unbound 7 0], [], 0, 0⟩ : Cache).binding 0 =
       .unbound 4 0 ∧
     (⟨[.unbound 4 0, .unbound 7 0], [], 0, 0⟩ : Cache).binding 1 =
       .unbound 7 0 ∧
     (0 : Nat) < 2 ∧ (1 : Nat) < 2 ∧ 1 + 3 ≤ 10) ∧
    (∃ cf, unify 10 (.struct [("x", Ty.primitive 2)] 0)
          (.struct [("y", Ty.primitive 3)] 1)
          ⟨[.unbound 4 0, .unbound 7 0], [], 0, 0⟩ = some (.done cf) ∧
       cf.binding 0 = .bound (.typeVariable 1) ∧
       cf.binding 1 = .bound (.struct
         (mergeInto [("x", Ty.primitive 2)] [("y", Ty.primitive 3)]) 2) ∧
       cf.binding 2 = .unbound (min 4 7) 0 ∧
       (0 : Nat) ≠ 2 ∧ (1 : Nat) ≠ 2 ∧
       cf.diagnostics = 0 ∧
       (mergeInto [("x", Ty.primitive 2)] [("y", Ty.primitive 3)]).length ≠ 1 ∧
       (mergeInto [("x", Ty.primitive 2)] [("y", Ty.primitive 3)]).length ≠ 1) :=
  ⟨⟨by decide, by decide, by decide, by decide, by decide, rfl, rfl,
    by decide, by decide, by decide⟩,
   c6_amended_disjoint_struct_merge_binds_rows_through_fresh_min_level_row
     10 [("x", Ty.primitive 2)] [("y", Ty.primitive 3)] 0 1
     ⟨[.unbound 4 0, .unbound 7 0], [], 0, 0⟩ 4 0 7 0
     (by decide) (by decide) (by decide) (by decide) (by decide) rfl rfl
     (by decide) (by decide) (by decide)⟩

end Ante
